import Mathlib

/-!
Verification of the governance core of the xsecuremcp repository against its
natural-language specification.  The Python sources under `src/fastmcp/` are
shallowly embedded as executable Lean definitions; machine integers appear as
`Nat` with explicit reduction modulo `2^32` where the code relies on 32-bit
arithmetic (inside SHA-256).
-/

set_option maxRecDepth 100000

namespace XSecure

/-! ## SHA-256 (used by `hashlib.sha256(...).hexdigest()` throughout the code)

A direct executable implementation of FIPS 180-4 SHA-256 over a byte list,
with 32-bit words represented as `Nat` reduced modulo `2^32`.  The repository
always hashes the UTF-8 encoding of a string and renders the digest as
lowercase hex, which `sha256hex` packages up. -/

def M32 : Nat := 4294967296

def mask32 : Nat := 4294967295

def add32 (a b : Nat) : Nat := (a + b) % M32

def xor32 (a b : Nat) : Nat := Nat.xor a b

def and32 (a b : Nat) : Nat := Nat.land a b

def or32 (a b : Nat) : Nat := Nat.lor a b

def not32 (a : Nat) : Nat := Nat.xor a mask32

def rotr32 (n a : Nat) : Nat :=
  or32 (Nat.shiftRight a n) (Nat.shiftLeft a (32 - n) % M32)

def shr32 (n a : Nat) : Nat := Nat.shiftRight a n

def bsig0 (x : Nat) : Nat := xor32 (rotr32 2 x) (xor32 (rotr32 13 x) (rotr32 22 x))

def bsig1 (x : Nat) : Nat := xor32 (rotr32 6 x) (xor32 (rotr32 11 x) (rotr32 25 x))

def ssig0 (x : Nat) : Nat := xor32 (rotr32 7 x) (xor32 (rotr32 18 x) (shr32 3 x))

def ssig1 (x : Nat) : Nat := xor32 (rotr32 17 x) (xor32 (rotr32 19 x) (shr32 10 x))

def chFn (x y z : Nat) : Nat := xor32 (and32 x y) (and32 (not32 x) z)

def majFn (x y z : Nat) : Nat := xor32 (and32 x y) (xor32 (and32 x z) (and32 y z))

def shaK : List Nat :=
  [1116352408, 1899447441, 3049323471, 3921009573, 961987163, 1508970993,
   2453635748, 2870763221, 3624381080, 310598401, 607225278, 1426881987,
   1925078388, 2162078206, 2614888103, 3248222580, 3835390401, 4022224774,
   264347078, 604807628, 770255983, 1249150122, 1555081692, 1996064986,
   2554220882, 2821834349, 2952996808, 3210313671, 3336571891, 3584528711,
   113926993, 338241895, 666307205, 773529912, 1294757372, 1396182291,
   1695183700, 1986661051, 2177026350, 2456956037, 2730485921, 2820302411,
   3259730800, 3345764771, 3516065817, 3600352804, 4094571909, 275423344,
   430227734, 506948616, 659060556, 883997877, 958139571, 1322822218,
   1537002063, 1747873779, 1955562222, 2024104815, 2227730452, 2361852424,
   2428436474, 2756734187, 3204031479, 3329325298]

structure Hash8 where
  a : Nat
  b : Nat
  c : Nat
  d : Nat
  e : Nat
  f : Nat
  g : Nat
  h : Nat
deriving Repr, DecidableEq

def shaH0 : Hash8 :=
  ⟨1779033703, 3144134277, 1013904242, 2773480762,
   1359893119, 2600822924, 528734635, 1541459225⟩

def shaRound (x : Hash8) (ki wi : Nat) : Hash8 :=
  let t1 := add32 x.h (add32 (bsig1 x.e) (add32 (chFn x.e x.f x.g) (add32 ki wi)))
  let t2 := add32 (bsig0 x.a) (majFn x.a x.b x.c)
  ⟨add32 t1 t2, x.a, x.b, x.c, add32 x.d t1, x.e, x.f, x.g⟩

/-- Extend the 16-word chunk to the 64-word message schedule:
`w[i] = ssig1 w[i-2] + w[i-7] + ssig0 w[i-15] + w[i-16]`, computed on a
reversed accumulator (head = most recent word) so each step reads fixed
offsets 1, 6, 14 and 15. -/
def extendScheduleAux : Nat → List Nat → List Nat
  | 0, rws => rws
  | fuel + 1, rws =>
    let w := add32 (add32 (ssig1 (rws.getD 1 0)) (rws.getD 6 0))
                   (add32 (ssig0 (rws.getD 14 0)) (rws.getD 15 0))
    extendScheduleAux fuel (w :: rws)

def extendSchedule (ws : List Nat) : List Nat :=
  (extendScheduleAux 48 ws.reverse).reverse

def addHash8 (x y : Hash8) : Hash8 :=
  ⟨add32 x.a y.a, add32 x.b y.b, add32 x.c y.c, add32 x.d y.d,
   add32 x.e y.e, add32 x.f y.f, add32 x.g y.g, add32 x.h y.h⟩

def compressChunk (st : Hash8) (ws : List Nat) : Hash8 :=
  let sched := extendSchedule ws
  let final := (shaK.zip sched).foldl (fun acc kw => shaRound acc kw.1 kw.2) st
  addHash8 st final

/-- Big-endian bytes to 32-bit words (input length a multiple of 4). -/
def bytesToWords : List Nat → List Nat
  | b0 :: b1 :: b2 :: b3 :: rest =>
      (((b0 * 256 + b1) * 256 + b2) * 256 + b3) :: bytesToWords rest
  | _ => []

def listChunksAux (n : Nat) : Nat → List α → List (List α)
  | 0, _ => []
  | _, [] => []
  | fuel + 1, l => l.take n :: listChunksAux n fuel (l.drop n)

def listChunks (n : Nat) (l : List α) : List (List α) :=
  if n = 0 then [] else listChunksAux n l.length l

/-- Big-endian rendering of `v` in `n` bytes. -/
def natToBytesBE (n v : Nat) : List Nat :=
  match n with
  | 0 => []
  | m + 1 => natToBytesBE m (v / 256) ++ [v % 256]

def padMessage (msg : List Nat) : List Nat :=
  let len := msg.length
  let zeros := (56 + 64 - (len + 1) % 64) % 64
  msg ++ [128] ++ List.replicate zeros 0 ++ natToBytesBE 8 (len * 8)

def sha256Words (msg : List Nat) : Hash8 :=
  (listChunks 16 (bytesToWords (padMessage msg))).foldl compressChunk shaH0

def hexDigit (n : Nat) : Char :=
  "0123456789abcdef".toList.getD n '0'

def byteToHex (b : Nat) : List Char := [hexDigit (b / 16), hexDigit (b % 16)]

def wordToHex (w : Nat) : List Char :=
  byteToHex (w / 16777216 % 256) ++ byteToHex (w / 65536 % 256) ++
  byteToHex (w / 256 % 256) ++ byteToHex (w % 256)

/-- Lowercase-hex SHA-256 digest of a byte list. -/
def sha256hexBytes (msg : List Nat) : String :=
  let d := sha256Words msg
  String.mk (wordToHex d.a ++ wordToHex d.b ++ wordToHex d.c ++ wordToHex d.d ++
             wordToHex d.e ++ wordToHex d.f ++ wordToHex d.g ++ wordToHex d.h)

/-- UTF-8 encoding of one character (Python's `str.encode()`). -/
def charUtf8 (c : Char) : List Nat :=
  let n := c.toNat
  if n < 128 then [n]
  else if n < 2048 then [192 + n / 64, 128 + n % 64]
  else if n < 65536 then [224 + n / 4096, 128 + n / 64 % 64, 128 + n % 64]
  else [240 + n / 262144, 128 + n / 4096 % 64, 128 + n / 64 % 64, 128 + n % 64]

def utf8Bytes (s : String) : List Nat :=
  (s.toList.map charUtf8).foldr (· ++ ·) []

/-- `hashlib.sha256(s.encode()).hexdigest()`. -/
def sha256hex (s : String) : String := sha256hexBytes (utf8Bytes s)


/-! ## Merkle tree (src/fastmcp/ledger/merkle.py)

`MerkleTree._build_tree` copies the leaves as level 0 and repeatedly pairs
adjacent nodes into the next level, duplicating the last node of an odd level;
a parent is `sha256((left + right).encode()).hexdigest()` over the hex string
concatenation.  `generate_proof` walks the stored levels from the leaf's
index, appending the sibling at `i ^ 1` when that index exists, and
`MerkleProof.verify` folds the leaf with each recorded sibling. -/

inductive Position where
  | left
  | right
deriving Repr, DecidableEq

structure PathElem where
  hash : String
  position : Position
deriving Repr, DecidableEq

structure MerkleProof where
  leaf_hash : String
  path : List PathElem
  root_hash : String
deriving Repr, DecidableEq

/-- `MerkleProof.verify`: fold the leaf upward through the recorded siblings
and compare with the stored root. -/
def MerkleProof.verify (p : MerkleProof) : Bool :=
  (p.path.foldl
    (fun current pe =>
      match pe.position with
      | .left => sha256hex (pe.hash ++ current)
      | .right => sha256hex (current ++ pe.hash))
    p.leaf_hash) == p.root_hash

/-- Parent hash of two children, `sha256((left + right).encode()).hexdigest()`. -/
def hashPair (l r : String) : String := sha256hex (l ++ r)

/-- One pairing pass of `_build_tree`'s while-loop: pair `(i, i+1)`,
duplicating the last node when the level has odd length. -/
def nextLevel : List String → List String
  | [] => []
  | [x] => [hashPair x x]
  | x :: y :: rest => hashPair x y :: nextLevel rest

/-- All levels produced by `_build_tree`'s while-loop, level 0 first (fuel is
the leaf count, which bounds the number of halving passes). -/
def buildLevelsAux : Nat → List String → List (List String)
  | 0, cur => [cur]
  | fuel + 1, cur =>
    if cur.length ≤ 1 then [cur] else cur :: buildLevelsAux fuel (nextLevel cur)

def buildLevels (leaves : List String) : List (List String) :=
  buildLevelsAux leaves.length leaves

structure MerkleTree where
  leaf_hashes : List String
  tree_data : List (List String)
  root_hash : String
deriving Repr, DecidableEq

/-- The `MerkleTree` constructor; `none` models the `ValueError` raised on an
empty leaf list.  For a single leaf `_build_tree` returns the leaf without
storing levels. -/
def buildTree (leaves : List String) : Option MerkleTree :=
  match leaves with
  | [] => none
  | [x] => some ⟨leaves, [], x⟩
  | _ =>
    let levels := buildLevels leaves
    some ⟨leaves, levels, (levels.getLastD []).headD ""⟩

def MerkleTree.get_root (t : MerkleTree) : String := t.root_hash

/-- The sibling path recorded by `generate_proof`'s loop over
`range(len(tree_data) - 1)`: at each level the sibling index is `i + 1` for
even `i` (position "right") and `i - 1` for odd `i` (position "left"), and the
element is appended only `if sibling_index < len(current_level)`. -/
def proofPath : List (List String) → Nat → List PathElem
  | [], _ => []
  | [_], _ => []
  | lvl :: rest, i =>
    let sibIdx := if i % 2 = 0 then i + 1 else i - 1
    let pos := if i % 2 = 0 then Position.right else Position.left
    let step := if sibIdx < lvl.length then [PathElem.mk (lvl.getD sibIdx "") pos] else []
    step ++ proofPath rest (i / 2)

/-- `MerkleTree.generate_proof`: locate the leaf's first index (None when the
leaf is absent), special-case the single-leaf tree, otherwise walk the levels. -/
def MerkleTree.generateProof (t : MerkleTree) (leaf_hash : String) : Option MerkleProof :=
  match t.leaf_hashes.indexOf? leaf_hash with
  | none => none
  | some i =>
    if t.leaf_hashes.length = 1 then some ⟨leaf_hash, [], t.root_hash⟩
    else some ⟨leaf_hash, proofPath t.tree_data i, t.root_hash⟩

/-! ## Provenance ledger (src/fastmcp/ledger/ledger.py)

The SQLite tables collapse to in-memory lists: `entries` holds the
`ledger_entries` rows in insertion order (which is ascending
`sequence_number` order, so the source's `ORDER BY sequence_number` is the
identity on this list) and `blocks` holds the `ledger_blocks` rows.  Blocks
are identified by `block_number` (unique in every reachable state), standing
in for the row UUID in `block_id` foreign keys.  Timestamps are carried as
their already-rendered strings; `datetime.utcnow()` becomes an explicit
`now` argument.  The `merkle_tree_data` JSON dump and the per-row
`is_verified`/`verification_timestamp` flags are write-only in the verified
operations and are omitted. -/

inductive EventType where
  | tool_call
  | policy_decision
  | data_flow
  | contract_action
  | authentication
  | authorization
  | system_event
deriving Repr, DecidableEq

def EventType.value : EventType → String
  | .tool_call => "tool_call"
  | .policy_decision => "policy_decision"
  | .data_flow => "data_flow"
  | .contract_action => "contract_action"
  | .authentication => "authentication"
  | .authorization => "authorization"
  | .system_event => "system_event"

/-- Python attribute lookup on the `EventType` enum class by member name;
`none` models the `AttributeError` raised for a missing member.  Note the
enum has no `REFLEXIVE_DECISION` member even though
`ReflexiveEngine._log_decision` accesses one. -/
def eventTypeMember : String → Option EventType
  | "TOOL_CALL" => some .tool_call
  | "POLICY_DECISION" => some .policy_decision
  | "DATA_FLOW" => some .data_flow
  | "CONTRACT_ACTION" => some .contract_action
  | "AUTHENTICATION" => some .authentication
  | "AUTHORIZATION" => some .authorization
  | "SYSTEM_EVENT" => some .system_event
  | _ => none

/-- `json.dumps` escaping of one character (`ensure_ascii=True`). -/
def jsonEscapeChar (c : Char) : List Char :=
  let n := c.toNat
  if n = 34 then ['\\', '"']
  else if n = 92 then ['\\', '\\']
  else if n = 10 then ['\\', 'n']
  else if n = 13 then ['\\', 'r']
  else if n = 9 then ['\\', 't']
  else if n = 8 then ['\\', 'b']
  else if n = 12 then ['\\', 'f']
  else if n < 32 then
    '\\' :: 'u' :: [hexDigit (n / 4096 % 16), hexDigit (n / 256 % 16),
                    hexDigit (n / 16 % 16), hexDigit (n % 16)]
  else if n < 127 then [c]
  else if n < 65536 then
    '\\' :: 'u' :: [hexDigit (n / 4096 % 16), hexDigit (n / 256 % 16),
                    hexDigit (n / 16 % 16), hexDigit (n % 16)]
  else
    let m := n - 65536
    let hi := 55296 + m / 1024
    let lo := 56320 + m % 1024
    ('\\' :: 'u' :: [hexDigit (hi / 4096 % 16), hexDigit (hi / 256 % 16),
                     hexDigit (hi / 16 % 16), hexDigit (hi % 16)]) ++
    ('\\' :: 'u' :: [hexDigit (lo / 4096 % 16), hexDigit (lo / 256 % 16),
                     hexDigit (lo / 16 % 16), hexDigit (lo % 16)])

/-- `json.dumps` rendering of a string value. -/
def jsonStr (s : String) : String :=
  "\"" ++ String.mk ((s.toList.map jsonEscapeChar).foldr (· ++ ·) []) ++ "\""

def jsonOptStr : Option String → String
  | none => "null"
  | some s => jsonStr s

/-- `json.dumps` rendering of a string-valued dict in insertion order
(default separators `", "` and `": "`). -/
def jsonStrDict (m : List (String × String)) : String :=
  "\x7b" ++ String.intercalate ", " (m.map fun kv => jsonStr kv.1 ++ ": " ++ jsonStr kv.2) ++ "\x7d"

/-- `LedgerEvent`.  `metadata` is restricted to string-valued maps (the only
shape the verified scenarios use); `timestamp` carries `str(datetime)`. -/
structure LedgerEvent where
  event_type : EventType
  actor_id : String
  resource_id : Option String := none
  action : String
  metadata : List (String × String) := []
  timestamp : String
  data_hash : Option String := none
deriving Repr, DecidableEq

/-- `LedgerEntry.set_event`: `json.dumps(event.model_dump(), default=str)`,
keys in pydantic field declaration order (no `sort_keys` here). -/
def encodeEvent (e : LedgerEvent) : String :=
  "\x7b\"event_type\": " ++ jsonStr e.event_type.value ++
  ", \"actor_id\": " ++ jsonStr e.actor_id ++
  ", \"resource_id\": " ++ jsonOptStr e.resource_id ++
  ", \"action\": " ++ jsonStr e.action ++
  ", \"metadata\": " ++ jsonStrDict e.metadata ++
  ", \"timestamp\": " ++ jsonStr e.timestamp ++
  ", \"data_hash\": " ++ jsonOptStr e.data_hash ++ "\x7d"

structure LedgerEntryRec where
  sequence_number : Nat
  event_data : String
  previous_hash : Option String
  entry_hash : String
  block_id : Option Nat
  created_at : String
deriving Repr, DecidableEq

/-- `LedgerEntry.calculate_hash`: SHA-256 of the sorted-key `json.dumps` of
`{sequence_number, event_data, previous_hash, created_at}` (sorted key order:
`created_at < event_data < previous_hash < sequence_number`). -/
def entryContentJson (seq : Nat) (event_data : String) (previous_hash : Option String)
    (created_at : String) : String :=
  "\x7b\"created_at\": " ++ jsonStr created_at ++
  ", \"event_data\": " ++ jsonStr event_data ++
  ", \"previous_hash\": " ++ jsonOptStr previous_hash ++
  ", \"sequence_number\": " ++ toString seq ++ "\x7d"

def LedgerEntryRec.calculateHash (e : LedgerEntryRec) : String :=
  sha256hex (entryContentJson e.sequence_number e.event_data e.previous_hash e.created_at)

/-- `LedgerEntry.verify_integrity`. -/
def LedgerEntryRec.verifyIntegrity (e : LedgerEntryRec) : Bool :=
  e.calculateHash == e.entry_hash

structure LedgerBlockRec where
  block_number : Nat
  entry_count : Nat
  first_entry_sequence : Nat
  last_entry_sequence : Nat
  merkle_root : String
  sealed_at : Option String
deriving Repr, DecidableEq

/-- The ledger store state (`ProvenanceLedger` plus its two tables). -/
structure Ledger where
  entries : List LedgerEntryRec
  blocks : List LedgerBlockRec
  current_sequence : Nat
  current_block : Option Nat
  block_size : Nat
deriving Repr, DecidableEq

/-- `ProvenanceLedger.__init__` over an empty database (`max(sequence) + 1`
is 1, no open block, `block_size = 100`). -/
def emptyLedger : Ledger :=
  { entries := [], blocks := [], current_sequence := 1, current_block := none,
    block_size := 100 }

/-- `get_entry` / the `sequence_number ==` select. -/
def getEntryBySeq (st : Ledger) (n : Nat) : Option LedgerEntryRec :=
  st.entries.find? (·.sequence_number == n)

/-- `get_block`. -/
def getBlockByNumber (st : Ledger) (n : Nat) : Option LedgerBlockRec :=
  st.blocks.find? (·.block_number == n)

/-- `get_block_entries`-style select: rows whose `block_id` references the
block, in sequence order. -/
def blockEntries (st : Ledger) (blockNum : Nat) : List LedgerEntryRec :=
  st.entries.filter (·.block_id == some blockNum)

/-- `_get_next_block_number`: `max(block_number) + 1` (0 when no blocks). -/
def nextBlockNumber (st : Ledger) : Nat :=
  (st.blocks.foldl (fun m b => max m b.block_number) 0) + 1

/-- `_should_seal_block`. -/
def shouldSealBlock (st : Ledger) : Bool :=
  match st.current_block with
  | none => false
  | some c =>
    match getBlockByNumber st c with
    | none => false
    | some b => st.block_size ≤ b.entry_count

/-- `MerkleTree(entry_hashes).get_root()`; callers guard non-empty input
(the constructor raises on an empty list). -/
def merkleRootOfHashes (hashes : List String) : String :=
  match buildTree hashes with
  | some t => t.root_hash
  | none => ""

/-- `_seal_block`: recompute the Merkle root over the block's entries, stamp
`sealed_at` and drop the current-block pointer.  Early-returns (no state
change) when there is no current block or it has no entries. -/
def sealBlock (now : String) (st : Ledger) : Ledger :=
  match st.current_block with
  | none => st
  | some c =>
    let entries := blockEntries st c
    if entries.isEmpty then st
    else
      let root := merkleRootOfHashes (entries.map (·.entry_hash))
      { st with
        blocks := st.blocks.map fun b =>
          if b.block_number == c then { b with merkle_root := root, sealed_at := some now }
          else b,
        current_block := none }

/-- `seal_current_block`: returns `false` without sealing when no block is
open. -/
def sealCurrentBlock (now : String) (st : Ledger) : Ledger × Bool :=
  match st.current_block with
  | none => (st, false)
  | some _ => (sealBlock now st, true)

/-- The previous-entry hash `append_event` reads (`None` at sequence 1 or
when the lookup finds nothing). -/
def appendPrevHash (st : Ledger) : Option String :=
  if 1 < st.current_sequence then
    (getEntryBySeq st (st.current_sequence - 1)).map (·.entry_hash)
  else none

/-- The `if self._current_block is None or self._should_seal_block()` guard. -/
def appendNeedNewBlock (st : Ledger) : Bool :=
  st.current_block.isNone || shouldSealBlock st

/-- `_create_new_block`: a fresh open block with `max(block_number) + 1`. -/
def createNewBlock (st : Ledger) : LedgerBlockRec :=
  { block_number := nextBlockNumber st, entry_count := 0,
    first_entry_sequence := st.current_sequence,
    last_entry_sequence := st.current_sequence - 1,
    merkle_root := "", sealed_at := none }

/-- The block the new entry is attached to. -/
def appendBlockNum (st : Ledger) : Nat :=
  if appendNeedNewBlock st then nextBlockNumber st else st.current_block.getD 0

/-- The `LedgerEntry` built by `append_event` (its hash is computed before
`block_id` is assigned, and does not cover it). -/
def appendNewEntry (now : String) (event : LedgerEvent) (st : Ledger) : LedgerEntryRec :=
  { sequence_number := st.current_sequence, event_data := encodeEvent event,
    previous_hash := appendPrevHash st,
    entry_hash :=
      sha256hex (entryContentJson st.current_sequence (encodeEvent event) (appendPrevHash st) now),
    block_id := some (appendBlockNum st), created_at := now }

/-- The `entry_count += 1; last_entry_sequence = seq` update on the block row. -/
def bumpBlock (blockNum seq : Nat) (bs : List LedgerBlockRec) : List LedgerBlockRec :=
  bs.map fun b =>
    if b.block_number == blockNum then
      { b with entry_count := b.entry_count + 1, last_entry_sequence := seq }
    else b

/-- `append_event`: read the previous entry's hash, build the entry and its
hash, open a new block if needed, insert the entry, bump the block's count
and `last_entry_sequence`, seal when the count reaches `block_size`, and
advance the sequence counter. -/
def appendEvent (now : String) (event : LedgerEvent) (st : Ledger) : Ledger :=
  let st1 :=
    if appendNeedNewBlock st then
      { st with blocks := st.blocks ++ [createNewBlock st],
                current_block := some (nextBlockNumber st) }
    else st
  let entry := appendNewEntry now event st
  let st2 := { st1 with entries := st1.entries ++ [entry] }
  let st3 := { st2 with blocks := bumpBlock (appendBlockNum st) entry.sequence_number st2.blocks }
  let st4 := if shouldSealBlock st3 then sealBlock now st3 else st3
  { st4 with current_sequence := st4.current_sequence + 1 }

/-- The loop body of `verify_chain_integrity`: per-entry recompute check plus
the `previous_hash` comparison against the running hash (skipped while the
accumulator is still `None`). -/
def verifyChainEntries : Option String → List LedgerEntryRec → Bool
  | _, [] => true
  | prev, e :: rest =>
    if !e.verifyIntegrity then false
    else
      match prev with
      | some p => if e.previous_hash != some p then false
                  else verifyChainEntries (some e.entry_hash) rest
      | none => verifyChainEntries (some e.entry_hash) rest

/-- `verify_chain_integrity(start, end?)`.  The `if end_sequence:` guard is
Python truthiness, so an `end_sequence` of 0 applies no upper bound. -/
def verifyChainIntegrity (st : Ledger) (start_sequence : Nat) (end_sequence : Option Nat) : Bool :=
  let entries := st.entries.filter fun e =>
    start_sequence ≤ e.sequence_number &&
    (match end_sequence with
     | none => true
     | some e' => if e' = 0 then true else e.sequence_number ≤ e')
  verifyChainEntries none entries

/-- `LedgerBlock.verify_integrity`: entry count must match, then the
recomputed Merkle root must equal the stored one. -/
def LedgerBlockRec.verifyIntegrity (b : LedgerBlockRec) (entries : List LedgerEntryRec) : Bool :=
  if entries.length ≠ b.entry_count then false
  else merkleRootOfHashes (entries.map (·.entry_hash)) == b.merkle_root

/-- `verify_block_integrity(n)`. -/
def verifyBlockIntegrity (st : Ledger) (block_number : Nat) : Bool :=
  match getBlockByNumber st block_number with
  | none => false
  | some b =>
    let entries := blockEntries st block_number
    if entries.isEmpty then false
    else if !(entries.all (·.verifyIntegrity)) then false
    else b.verifyIntegrity entries

/-- Ledger operations a client can drive the store through. -/
inductive LedgerOp where
  | append (now : String) (event : LedgerEvent)
  | seal (now : String)
deriving Repr

def applyLedgerOp (st : Ledger) : LedgerOp → Ledger
  | .append now ev => appendEvent now ev st
  | .seal now => (sealCurrentBlock now st).1

def replayLedger (ops : List LedgerOp) : Ledger :=
  ops.foldl applyLedgerOp emptyLedger

/-- The hash-chain shape asserted by the spec: the first entry's
`previous_hash` is null and each later entry's `previous_hash` is the
previous entry's `entry_hash`. -/
def chainLinked : Option String → List LedgerEntryRec → Bool
  | _, [] => true
  | prev, e :: rest => (e.previous_hash == prev) && chainLinked (some e.entry_hash) rest

/-- The hash a fresh entry must link to: the last entry's hash, or the
accumulator when the list is empty. -/
def lastHashOpt (p : Option String) (l : List LedgerEntryRec) : Option String :=
  match l.getLast? with
  | some x => some x.entry_hash
  | none => p

/-- The invariants every reachable ledger state satisfies: contiguous
sequence numbers, a correct counter, recomputable entry hashes, an intact
hash chain, contiguous block numbers, entry block references into the block
table, sealed blocks carrying their exact entry count and recomputed Merkle
root, every unsealed block being the current one, and the current block
being a non-full open block whose count matches its entries. -/
structure LedgerWF (st : Ledger) : Prop where
  seqs : st.entries.map (·.sequence_number) = List.range' 1 st.entries.length
  cur : st.current_sequence = st.entries.length + 1
  hashes : ∀ e ∈ st.entries, e.entry_hash = e.calculateHash
  chain : chainLinked none st.entries = true
  bnums : st.blocks.map (·.block_number) = List.range' 1 st.blocks.length
  ebids : ∀ e ∈ st.entries, ∀ bid, e.block_id = some bid →
    bid ∈ st.blocks.map (·.block_number)
  sealed_ok : ∀ b ∈ st.blocks, b.sealed_at ≠ none →
    blockEntries st b.block_number ≠ [] ∧
    b.entry_count = (blockEntries st b.block_number).length ∧
    b.merkle_root = merkleRootOfHashes ((blockEntries st b.block_number).map (·.entry_hash))
  unsealed_cur : ∀ b ∈ st.blocks, b.sealed_at = none → st.current_block = some b.block_number
  cur_block : ∀ c, st.current_block = some c → ∃ b ∈ st.blocks, b.block_number = c ∧
    b.sealed_at = none ∧ b.entry_count = (blockEntries st c).length ∧
    blockEntries st c ≠ [] ∧ b.entry_count < st.block_size

/-! ## Contracts (src/fastmcp/contracts/contract.py, registry.py, engine.py)

A contract row is modelled with its JSON-encoded columns (`clauses`,
`parties`, `signatures`, `contract_metadata`) replaced by the structured
values they encode, together with encoder functions mirroring
`set_clauses`/`set_parties` (`json.dumps(...)` of the `model_dump`s in field
declaration order).  The operations below act on one contract record: the
registry's per-UUID lookup is the identity here, and `datetime.utcnow()` is an
explicit `now : Nat` (an abstract UTC instant, rendered with `toString` where
the code stores a string).  Ed25519 verification (`crypto.verify_signature`)
is an uninterpreted parameter `verifySig pub msg sig`, total and boolean just
like the source function, which returns `False` on any crypto error.
Metadata dictionaries are modelled as string-valued association lists with
`dictUpdate` playing `dict.update`; nested metadata dicts (the proposal,
revocation and state-change notes) are carried as rendered strings, which the
verified claims never inspect. -/

inductive ContractState where
  | draft
  | proposed
  | signed
  | revoked
  | expired
deriving Repr, DecidableEq

def ContractState.value : ContractState → String
  | .draft => "draft"
  | .proposed => "proposed"
  | .signed => "signed"
  | .revoked => "revoked"
  | .expired => "expired"

structure Clause where
  id : String
  title : String
  content : String
  type : String
  metadata : List (String × String)
deriving Repr, DecidableEq

structure Party where
  id : String
  name : String
  type : String
deriving Repr, DecidableEq

structure Signature where
  signer_id : String
  signer_type : String
  signature : String
  public_key : String
  timestamp : String
  metadata : List (String × String)
deriving Repr, DecidableEq

/-- `dict.update`: overwrite existing keys in place, append new ones. -/
def dictUpdate (base upd : List (String × String)) : List (String × String) :=
  upd.foldl
    (fun acc kv =>
      if acc.any (·.1 == kv.1) then acc.map (fun e => if e.1 == kv.1 then kv else e)
      else acc ++ [kv])
    base

/-- `set_clauses`: `json.dumps([clause.model_dump() for clause in clauses])`. -/
def clauseJson (c : Clause) : String :=
  "\x7b\"id\": " ++ jsonStr c.id ++ ", \"title\": " ++ jsonStr c.title ++
  ", \"content\": " ++ jsonStr c.content ++ ", \"type\": " ++ jsonStr c.type ++
  ", \"metadata\": " ++ jsonStrDict c.metadata ++ "\x7d"

def clausesJson (cs : List Clause) : String :=
  "[" ++ String.intercalate ", " (cs.map clauseJson) ++ "]"

/-- `set_parties`: `json.dumps(parties)` over the party dicts. -/
def partyJson (p : Party) : String :=
  "\x7b\"id\": " ++ jsonStr p.id ++ ", \"name\": " ++ jsonStr p.name ++
  ", \"type\": " ++ jsonStr p.type ++ "\x7d"

def partiesJson (ps : List Party) : String :=
  "[" ++ String.intercalate ", " (ps.map partyJson) ++ "]"

structure Contract where
  id : String
  title : String
  description : String
  clauses : List Clause
  parties : List Party
  state : ContractState
  created_at : Nat
  proposed_at : Option Nat
  signed_at : Option Nat
  revoked_at : Option Nat
  expires_at : Option Nat
  signatures : List Signature
  is_hipaa_compliant : Bool
  hipaa_entities : String
  contract_metadata : List (String × String)
  version : String
  created_by : String
  last_modified : Nat
deriving Repr, DecidableEq

/-- `Contract.get_content_hash`: SHA-256 of the sorted-key `json.dumps` of
`{id, title, description, clauses, parties, version}`, where `clauses` and
`parties` are the JSON-encoded column strings (sorted key order:
`clauses < description < id < parties < title < version`). -/
def Contract.get_content_hash (c : Contract) : String :=
  sha256hex
    ("\x7b\"clauses\": " ++ jsonStr (clausesJson c.clauses) ++
     ", \"description\": " ++ jsonStr c.description ++
     ", \"id\": " ++ jsonStr c.id ++
     ", \"parties\": " ++ jsonStr (partiesJson c.parties) ++
     ", \"title\": " ++ jsonStr c.title ++
     ", \"version\": " ++ jsonStr c.version ++ "\x7d")

/-- `Contract.can_transition_to` (the §3 transition table). -/
def Contract.canTransitionTo (c : Contract) (new_state : ContractState) : Bool :=
  match c.state with
  | .draft => new_state == .proposed || new_state == .revoked
  | .proposed => new_state == .signed || new_state == .revoked || new_state == .draft
  | .signed => new_state == .revoked
  | .revoked => false
  | .expired => false

/-- `Contract.is_fully_signed`: the set of party ids is a subset of the set of
signer ids. -/
def Contract.isFullySigned (c : Contract) : Bool :=
  c.parties.all fun p => c.signatures.any fun s => s.signer_id == p.id

/-- Rendered stand-in for the nested `state_change_*` metadata dict. -/
def stateChangeNote (now : Nat) (updated_by : String) (previous_state : ContractState) : String :=
  "timestamp=" ++ toString now ++ "; updated_by=" ++ updated_by ++
  "; previous_state=" ++ previous_state.value

/-- `ContractRegistry.update_contract_state`: validate against the transition
table (`ValueError` otherwise), set the state, refresh `last_modified`, stamp
the state-specific timestamp if not already set, and merge any provided
metadata together with a `state_change_{new_state}` note. -/
def updateContractState (c : Contract) (new_state : ContractState) (updated_by : String)
    (metadata : List (String × String)) (now : Nat) : Except String Contract :=
  if !(c.canTransitionTo new_state) then
    .error ("Invalid state transition from " ++ c.state.value ++ " to " ++ new_state.value)
  else
    let old_state := c.state
    let c1 := { c with state := new_state, last_modified := now }
    let c2 :=
      match new_state with
      | .proposed => if c1.proposed_at.isNone then { c1 with proposed_at := some now } else c1
      | .signed => if c1.signed_at.isNone then { c1 with signed_at := some now } else c1
      | .revoked => if c1.revoked_at.isNone then { c1 with revoked_at := some now } else c1
      | _ => c1
    let c3 :=
      if metadata.isEmpty then c2
      else
        { c2 with
          contract_metadata :=
            dictUpdate (dictUpdate c2.contract_metadata metadata)
              [("state_change_" ++ new_state.value, stateChangeNote now updated_by old_state)] }
    .ok c3

/-- The signing message `f"{contract.id}:{contract.get_content_hash()}:{signer_id}:{signer_type}"`. -/
def signingMessage (c : Contract) (signer_id signer_type : String) : String :=
  c.id ++ ":" ++ c.get_content_hash ++ ":" ++ signer_id ++ ":" ++ signer_type

/-- `ContractRegistry._verify_signature` (and the engine's
`_verify_contract_signature`): Ed25519 verification of the signing message
under the supplied public key; `verifySig` abstracts `crypto.verify_signature`. -/
def verifyContractSignature (verifySig : String → String → String → Bool)
    (c : Contract) (s : Signature) : Bool :=
  verifySig s.public_key (signingMessage c s.signer_id s.signer_type) s.signature

/-- `ContractRegistry.add_signature`: require a signable state, verify the
signature, append it, auto-transition PROPOSED contracts that became fully
signed, and refresh `last_modified`. -/
def addSignature (verifySig : String → String → String → Bool)
    (c : Contract) (signature : Signature) (now : Nat) : Except String Contract :=
  if !(c.state == .proposed || c.state == .signed) then
    .error ("Cannot sign contract in state " ++ c.state.value)
  else if !(verifyContractSignature verifySig c signature) then
    .error "Invalid signature"
  else
    let c1 := { c with signatures := c.signatures ++ [signature] }
    if c1.isFullySigned && c1.state == .proposed then
      match updateContractState c1 .signed signature.signer_id [] now with
      | .error e => .error e
      | .ok c2 => .ok { c2 with last_modified := now }
    else .ok { c1 with last_modified := now }

structure ContractSignRequest where
  signer_id : String
  signer_type : String
  public_key : String
  signature : String
  metadata : List (String × String)
deriving Repr, DecidableEq

/-- `ContractEngine.sign_contract`: require PROPOSED or SIGNED, reject a
duplicate signer, verify the signature over the signing message, then hand the
built `Signature` to the registry's `add_signature`. -/
def signContract (verifySig : String → String → String → Bool)
    (c : Contract) (request : ContractSignRequest) (now : Nat) : Except String Contract :=
  if !(c.state == .proposed || c.state == .signed) then
    .error ("Cannot sign contract in state " ++ c.state.value)
  else if c.signatures.any (·.signer_id == request.signer_id) then
    .error "Party has already signed this contract"
  else if !(verifySig request.public_key
              (signingMessage c request.signer_id request.signer_type) request.signature) then
    .error "Invalid signature"
  else
    let signature : Signature :=
      { signer_id := request.signer_id, signer_type := request.signer_type,
        signature := request.signature, public_key := request.public_key,
        timestamp := toString now, metadata := request.metadata }
    addSignature verifySig c signature now

/-- Rendered stand-in for the nested proposal metadata dict. -/
def proposalNote (proposed_to : List String) (message : Option String)
    (proposed_by : String) (now : Nat) : String :=
  "proposed_to=" ++ String.intercalate "," proposed_to ++
  "; message=" ++ (message.getD "None") ++
  "; proposed_by=" ++ proposed_by ++ "; timestamp=" ++ toString now

/-- `ContractEngine.propose_contract`: require DRAFT, then transition to
PROPOSED through `update_contract_state` with the proposal metadata. -/
def proposeContract (c : Contract) (proposed_to : List String) (message : Option String)
    (proposed_by : String) (now : Nat) : Except String Contract :=
  if !(c.state == .draft) then
    .error ("Cannot propose contract in state " ++ c.state.value)
  else
    updateContractState c .proposed proposed_by
      [("proposal", proposalNote proposed_to message proposed_by now)] now

/-- Rendered stand-in for the nested revocation metadata dict. -/
def revocationNote (reason revoked_by : String) (metadata : List (String × String))
    (now : Nat) : String :=
  "reason=" ++ reason ++ "; revoked_by=" ++ revoked_by ++ "; timestamp=" ++ toString now ++
  "; extra=" ++ String.intercalate "," (metadata.map fun kv => kv.1 ++ "=" ++ kv.2)

/-- `ContractRegistry.revoke_contract` (the engine's `revoke_contract`
performs the same two state checks before delegating): record the revocation
metadata, then transition to REVOKED through `update_contract_state`. -/
def revokeContract (c : Contract) (reason revoked_by : String)
    (metadata : List (String × String)) (now : Nat) : Except String Contract :=
  if c.state == .revoked then .error "Contract is already revoked"
  else if c.state == .expired then .error "Cannot revoke expired contract"
  else
    let c1 :=
      { c with
        contract_metadata :=
          dictUpdate c.contract_metadata
            [("revocation", revocationNote reason revoked_by metadata now)] }
    updateContractState c1 .revoked revoked_by [] now

/-- The `get_expired_contracts` selection predicate:
`expires_at IS NOT NULL AND expires_at < now AND state NOT IN (EXPIRED, REVOKED)`. -/
def isExpiredCandidate (c : Contract) (now : Nat) : Bool :=
  match c.expires_at with
  | none => false
  | some t => decide (t < now) && !(c.state == .expired || c.state == .revoked)

/-- `ContractRegistry.mark_contracts_expired` restricted to one contract
(the engine's `cleanup_expired_contracts` maps this over all rows): selected
contracts get `state := EXPIRED` directly, bypassing `can_transition_to`. -/
def markExpired (c : Contract) (now : Nat) : Contract :=
  if isExpiredCandidate c now then { c with state := .expired, last_modified := now }
  else c

/-! ## Policy engine (src/fastmcp/policy/engine.py, decision.py)

A registered policy is a function from the evaluation context to a
`Decision`, with a raised exception modelled as `Except.error` carrying the
exception text.  The registry is an association list from policy name to
policy; the proof map's values are strings or string lists (all the engine
itself ever stores there). -/

inductive ProofVal where
  | s (v : String)
  | list (v : List String)
deriving Repr, DecidableEq

structure Decision where
  allow : Bool
  obligations : List (List (String × String))
  reason : String
  proof : Option (List (String × ProofVal))
deriving Repr, DecidableEq

/-- `Decision.allow_decision`. -/
def Decision.allow_decision (reason : String) (obligations : List (List (String × String)))
    (proof : Option (List (String × ProofVal))) : Decision :=
  ⟨true, obligations, reason, proof⟩

/-- `Decision.deny_decision`. -/
def Decision.deny_decision (reason : String) (obligations : List (List (String × String)))
    (proof : Option (List (String × ProofVal))) : Decision :=
  ⟨false, obligations, reason, proof⟩

/-- A policy: evaluation either returns a `Decision` or raises. -/
def PolicyFun (α : Type) : Type := α → Except String Decision

/-- `registry.get_policy`. -/
def getPolicy {α : Type} (registry : List (String × PolicyFun α)) (name : String) :
    Option (PolicyFun α) :=
  (registry.find? (·.1 == name)).map (·.2)

/-- The `for policy_name in policy_names` loop of `PolicyEngine.evaluate`:
skip unknown names, return the first deny unchanged, convert the first raised
exception into a deny whose reason is `"Policy evaluation error: {e}"` and
whose proof records the policy name and error; `none` means every evaluated
policy allowed. -/
def evalPoliciesLoop {α : Type} (registry : List (String × PolicyFun α)) (context : α) :
    List String → Option Decision
  | [] => none
  | n :: rest =>
    match getPolicy registry n with
    | none => evalPoliciesLoop registry context rest
    | some p =>
      match p context with
      | .ok d => if !d.allow then some d else evalPoliciesLoop registry context rest
      | .error e =>
        some (Decision.deny_decision ("Policy evaluation error: " ++ e) []
          (some [("policy", .s n), ("error", .s e)]))

/-- `PolicyEngine.evaluate(context, policy_names?)`: default the name list to
the evaluation order (if non-empty) or all registered names, run the loop,
and on full success return the aggregate allow carrying the name list. -/
def PolicyEngine.evaluate {α : Type} (registry : List (String × PolicyFun α))
    (evaluation_order : List String) (context : α) (policy_names : Option (List String)) :
    Decision :=
  let names :=
    match policy_names with
    | some ns => ns
    | none => if !evaluation_order.isEmpty then evaluation_order else registry.map (·.1)
  match evalPoliciesLoop registry context names with
  | some d => d
  | none =>
    Decision.allow_decision "All policies evaluated successfully" []
      (some [("evaluated_policies", .list names)])

/-! ## RBAC policy (src/fastmcp/policy/policies/rbac.py)

Python sets become lists queried by membership (`contains`); the `roles`,
`permissions` and `role_hierarchy` dicts become association lists. -/

structure RoleDef where
  description : String
  permissions : List String
deriving Repr, DecidableEq

structure RBACConfig where
  roles : List (String × RoleDef)
  permissions : List (String × List String)
  role_hierarchy : List (String × List String)
deriving Repr, DecidableEq

def alistLookup {β : Type} (l : List (String × β)) (k : String) : Option β :=
  (l.find? (·.1 == k)).map (·.2)

/-- The `for inherited_role in inherited_roles` loop: add the direct
permissions of each role the given role directly inherits from. -/
def inheritedPermsFold (cfg : RBACConfig) (inh : List String) (acc : List String) :
    List String :=
  inh.foldl
    (fun a ir =>
      match alistLookup cfg.roles ir with
      | some ird => a ++ ird.permissions
      | none => a)
    acc

/-- `RBACPolicy._get_user_permissions`: per user role, short-circuit to
`{"*"}` on a direct wildcard, otherwise add the role's direct permissions and
the direct permissions of its directly inherited roles (one level of
`role_hierarchy`, no recursion). -/
def getUserPermissionsGo (cfg : RBACConfig) : List String → List String → List String
  | [], acc => acc
  | r :: rest, acc =>
    match alistLookup cfg.roles r with
    | none => getUserPermissionsGo cfg rest acc
    | some rd =>
      if rd.permissions.contains "*" then ["*"]
      else
        getUserPermissionsGo cfg rest
          (inheritedPermsFold cfg ((alistLookup cfg.role_hierarchy r).getD [])
            (acc ++ rd.permissions))

def getUserPermissions (cfg : RBACConfig) (user_roles : List String) : List String :=
  getUserPermissionsGo cfg user_roles []

/-- `RBACPolicy._check_permission`: wildcard, direct match, or a granted
permission whose configured synonym list contains the action. -/
def checkPermission (cfg : RBACConfig) (user_permissions : List String)
    (required_action : String) : Bool :=
  user_permissions.contains "*" ||
  user_permissions.contains required_action ||
  cfg.permissions.any fun pa => user_permissions.contains pa.1 && pa.2.contains required_action

/-- Modelled from the spec: one inheritance-expansion step over
`role_hierarchy` ("the user's roles and their transitive inherited roles"). -/
def inheritedRolesStep (cfg : RBACConfig) (roles : List String) : List String :=
  roles ++ roles.foldl (fun a r => a ++ (alistLookup cfg.role_hierarchy r).getD []) []

/-- Modelled from the spec: the transitive closure of the user's roles under
`role_hierarchy` (iterated to a depth bounding any chain). -/
def specTransitiveRoles (cfg : RBACConfig) (user_roles : List String) : List String :=
  (List.range (cfg.role_hierarchy.length + 1)).foldl
    (fun rs _ => inheritedRolesStep cfg rs) user_roles

/-- Modelled from the spec: "the union of the permissions of the user's roles
and of all transitively inherited roles". -/
def specTransitivePermissions (cfg : RBACConfig) (user_roles : List String) : List String :=
  (specTransitiveRoles cfg user_roles).foldl
    (fun a r =>
      match alistLookup cfg.roles r with
      | some rd => a ++ rd.permissions
      | none => a)
    []

/-- Modelled from the spec: the claim's permitted-iff condition over the
transitive permission set. -/
def specPermitted (cfg : RBACConfig) (user_roles : List String) (action : String) : Bool :=
  let ps := specTransitivePermissions cfg user_roles
  ps.contains "*" || ps.contains action ||
    cfg.permissions.any fun pa => ps.contains pa.1 && pa.2.contains action

/-- The permission multiset the code actually accumulates, without the
wildcard short-circuit: direct permissions of each user role plus the direct
permissions of its directly inherited roles. -/
def oneLevelPermissions (cfg : RBACConfig) : List String → List String
  | [] => []
  | r :: rest =>
    (match alistLookup cfg.roles r with
     | none => []
     | some rd =>
       if rd.permissions.contains "*" then rd.permissions
       else rd.permissions ++
         inheritedPermsFold cfg ((alistLookup cfg.role_hierarchy r).getD []) []) ++
    oneLevelPermissions cfg rest

/-! ## Reflexive core (src/fastmcp/reflexive/engine.py, monitor.py)

Monitors are pure state-plus-context functions here; `datetime.utcnow()` is
an abstract instant `now : Nat` measured in seconds (so `timedelta(minutes=5)`
is 300 and `timestamp.hour` is `t / 3600 % 24`).  A monitor's returned record
is reduced to the two fields the engine reads: its `type` and its
`severity`. -/

inductive DecisionType where
  | halt
  | escalate
  | monitor
  | allow
deriving Repr, DecidableEq

def DecisionType.value : DecisionType → String
  | .halt => "halt"
  | .escalate => "escalate"
  | .monitor => "monitor"
  | .allow => "allow"

inductive RiskLevel where
  | low
  | medium
  | high
  | critical
deriving Repr, DecidableEq

/-- Severity order on risk levels (LOW < MEDIUM < HIGH < CRITICAL). -/
def riskRank : RiskLevel → Nat
  | .low => 0
  | .medium => 1
  | .high => 2
  | .critical => 3

/-- A monitor finding as the engine consumes it: the record's `"type"` and
`"severity"` entries (`.get` may miss, hence the `Option`). -/
structure Finding where
  ftype : String
  severity : Option String
deriving Repr, DecidableEq

/-- `ReflexiveEngine._assess_risk_level`: filter per severity; CRITICAL on
any critical, HIGH on any high or ≥ 5 issues, MEDIUM on any medium or ≥ 2
issues, else LOW (`total_issues = len(violations) + len(anomalies)`). -/
def assessRiskLevel (violations anomalies : List Finding) : RiskLevel :=
  if !(violations.filter (·.severity == some "critical")).isEmpty ||
     !(anomalies.filter (·.severity == some "critical")).isEmpty then .critical
  else if !(violations.filter (·.severity == some "high")).isEmpty ||
          !(anomalies.filter (·.severity == some "high")).isEmpty ||
          5 ≤ violations.length + anomalies.length then .high
  else if !(violations.filter (·.severity == some "medium")).isEmpty ||
          !(anomalies.filter (·.severity == some "medium")).isEmpty ||
          2 ≤ violations.length + anomalies.length then .medium
  else .low

/-- Whether any violation or anomaly carries the given severity. -/
def anySeverity (violations anomalies : List Finding) (sev : String) : Bool :=
  violations.any (·.severity == some sev) || anomalies.any (·.severity == some sev)

/-- Modelled from the spec's wording of step 3 of the evaluation pipeline:
"CRITICAL if any input has severity=critical; HIGH if any severity=high OR
total_issues ≥ 5; MEDIUM if any severity=medium OR total_issues ≥ 2; else
LOW". -/
def assessRiskLevelSpec (violations anomalies : List Finding) : RiskLevel :=
  if anySeverity violations anomalies "critical" then .critical
  else if anySeverity violations anomalies "high" ||
          5 ≤ violations.length + anomalies.length then .high
  else if anySeverity violations anomalies "medium" ||
          2 ≤ violations.length + anomalies.length then .medium
  else .low

structure ActionContext where
  action_id : String
  actor_id : String
  action_type : String
  resource_id : Option String
  metadata : List (String × Bool)
  timestamp : Nat
deriving Repr, DecidableEq

def hourOf (t : Nat) : Nat := t / 3600 % 24

/-- Truthiness of `metadata.get("authorized")` over a boolean-valued map. -/
def metadataTruthy (m : List (String × Bool)) (k : String) : Bool :=
  ((m.find? (·.1 == k)).map (·.2)).getD false

structure Issue where
  rule : String
  message : String
  severity : String
deriving Repr, DecidableEq

/-- Byte-code prefix test (Python `str.startswith`). -/
def strStartsWith (s pre : String) : Bool :=
  (pre.toList.map Char.toNat).isPrefixOf (s.toList.map Char.toNat)

def lowerCode (n : Nat) : Nat := if 65 ≤ n && n ≤ 90 then n + 32 else n

def listIsInfix : List Nat → List Nat → Bool
  | needle, [] => needle.isEmpty
  | needle, x :: rest => needle.isPrefixOf (x :: rest) || listIsInfix needle rest

/-- Python `sub in s.lower()` over ASCII code points. -/
def strContainsLower (s sub : String) : Bool :=
  listIsInfix (sub.toList.map Char.toNat) ((s.toList.map Char.toNat).map lowerCode)

/-- A stored `violation_record`, reduced to the fields later reads consult. -/
structure ViolationRecord where
  actor_id : String
  timestamp : Nat
deriving Repr, DecidableEq

/-- `PolicyMonitor._check_policy_violations`: guest admin access (high),
rate limit after ≥ 3 recent violations by the actor (medium), unauthorized
access to a "sensitive" resource (critical). -/
def checkPolicyViolations (history : List ViolationRecord) (ctx : ActionContext)
    (now : Nat) : List Issue :=
  let v1 :=
    if ctx.action_type == "admin_access" && strStartsWith ctx.actor_id "guest" then
      [Issue.mk "admin_access_restriction" "Guest user attempting admin access" "high"]
    else []
  let recent := history.filter fun v =>
    v.actor_id == ctx.actor_id && decide (now < v.timestamp + 300)
  let v2 :=
    if 3 ≤ recent.length then
      [Issue.mk "rate_limit_exceeded"
        ("Actor " ++ ctx.actor_id ++ " has " ++ toString recent.length ++ " recent violations")
        "medium"]
    else []
  let v3 :=
    match ctx.resource_id with
    | some rid =>
      if strContainsLower rid "sensitive" && !(metadataTruthy ctx.metadata "authorized") then
        [Issue.mk "unauthorized_sensitive_access" "Unauthorized access to sensitive resource"
          "critical"]
      else []
    | none => []
  v1 ++ v2 ++ v3

/-- `PolicyMonitor._assess_violation_severity`. -/
def assessIssueSeverity (issues : List Issue) : String :=
  if issues.isEmpty then "low"
  else if issues.any (·.severity == "critical") then "critical"
  else if issues.any (·.severity == "high") then "high"
  else if issues.any (·.severity == "medium") then "medium"
  else "low"

/-- `PolicyMonitor.__call__`: a violation finding when any rule fires. -/
def policyMonitorCall (history : List ViolationRecord) (ctx : ActionContext)
    (now : Nat) : Option Finding :=
  let violations := checkPolicyViolations history ctx now
  if violations.isEmpty then none
  else some ⟨"violation", some (assessIssueSeverity violations)⟩

/-- `LedgerMonitor._check_ledger_integrity`: chain verification failure is
critical; entries without blocks is high. -/
def checkLedgerIntegrity (st : Ledger) : List Issue :=
  let i1 :=
    if !(verifyChainIntegrity st 1 none) then
      [Issue.mk "chain_integrity" "Ledger chain integrity verification failed" "critical"]
    else []
  let i2 :=
    if 0 < st.entries.length && st.blocks.length == 0 then
      [Issue.mk "missing_blocks" "Entries exist but no blocks found" "high"]
    else []
  i1 ++ i2

/-- `LedgerMonitor.__call__`: `None` without a ledger; otherwise an anomaly
finding when any integrity issue is found.  (`_assess_integrity_severity`
coincides with `assessIssueSeverity`.) -/
def ledgerMonitorCall (ledger : Option Ledger) : Option Finding :=
  match ledger with
  | none => none
  | some st =>
    let issues := checkLedgerIntegrity st
    if issues.isEmpty then none
    else some ⟨"anomaly", some (assessIssueSeverity issues)⟩

/-- Per-actor behavioural state of `AnomalyDetector` (defaultdicts become
association lists returning 0 when absent). -/
structure ActorPatterns where
  action_counts : List (String × Nat)
  resource_access : List (String × Nat)
  session_times : List Nat
deriving Repr, DecidableEq

def emptyActorPatterns : ActorPatterns := ⟨[], [], []⟩

def countOf (m : List (String × Nat)) (k : String) : Nat :=
  ((m.find? (·.1 == k)).map (·.2)).getD 0

def bumpCount (m : List (String × Nat)) (k : String) : List (String × Nat) :=
  if m.any (·.1 == k) then m.map fun e => if e.1 == k then (e.1, e.2 + 1) else e
  else m ++ [(k, 1)]

/-- `AnomalyDetector._update_patterns` (the per-actor part; the deque keeps
the last 100 session times). -/
def updatePatterns (pat : ActorPatterns) (ctx : ActionContext) : ActorPatterns :=
  { action_counts := bumpCount pat.action_counts ctx.action_type,
    resource_access :=
      match ctx.resource_id with
      | some rid => bumpCount pat.resource_access rid
      | none => pat.resource_access,
    session_times := (pat.session_times ++ [ctx.timestamp]).reverse.take 100 |>.reverse }

/-- `AnomalyDetector._detect_anomalies` (run after `_update_patterns`):
high-frequency (medium), unusual-hour first uses (low), first resource access
(low), first privileged action (high). -/
def detectAnomalies (pat : ActorPatterns) (ctx : ActionContext) (now : Nat) : List Issue :=
  let a1 :=
    if 10 ≤ pat.session_times.length then
      let recent := pat.session_times.filter fun t => decide (now < t + 300)
      if 20 < recent.length then
        [Issue.mk "high_frequency"
          ("Actor " ++ ctx.actor_id ++ " performing " ++ toString recent.length ++
            " actions in 5 minutes") "medium"]
      else []
    else []
  let current_hour := hourOf ctx.timestamp
  let a2 :=
    if current_hour < 6 || 22 < current_hour then
      if countOf pat.action_counts ctx.action_type < 5 then
        [Issue.mk "unusual_timing"
          ("Actor " ++ ctx.actor_id ++ " performing " ++ ctx.action_type ++
            " at unusual hour " ++ toString current_hour) "low"]
      else []
    else []
  let a3 :=
    match ctx.resource_id with
    | some rid =>
      if countOf pat.resource_access rid == 1 then
        [Issue.mk "new_resource_access"
          ("Actor " ++ ctx.actor_id ++ " accessing new resource " ++ rid) "low"]
      else []
    | none => []
  let a4 :=
    if (ctx.action_type == "admin_access" || ctx.action_type == "root_access" ||
        ctx.action_type == "privilege_escalation") &&
       countOf pat.action_counts ctx.action_type == 1 then
      [Issue.mk "privilege_escalation"
        ("Actor " ++ ctx.actor_id ++ " attempting privileged action for first time") "high"]
    else []
  a1 ++ a2 ++ a3 ++ a4

/-- `AnomalyDetector._assess_anomaly_severity` (no critical tier here). -/
def assessAnomalySeverity (issues : List Issue) : String :=
  if issues.isEmpty then "low"
  else if issues.any (·.severity == "high") then "high"
  else if issues.any (·.severity == "medium") then "medium"
  else "low"

/-- `AnomalyDetector.__call__`: update patterns, then report an anomaly
finding when any rule fires. -/
def anomalyDetectorCall (pat : ActorPatterns) (ctx : ActionContext) (now : Nat) :
    Option Finding :=
  let pat1 := updatePatterns pat ctx
  let anomalies := detectAnomalies pat1 ctx now
  if anomalies.isEmpty then none
  else some ⟨"anomaly", some (assessAnomalySeverity anomalies)⟩

/-- The monitor-collection loop of `_evaluate_action`: keep findings of type
`"violation"` or `"anomaly"`, ignore everything else (including monitors that
returned `None` or raised). -/
def collectFindings (results : List (Option Finding)) : List Finding × List Finding :=
  results.foldl
    (fun acc r =>
      match r with
      | some m =>
        if m.ftype == "violation" then (acc.1 ++ [m], acc.2)
        else if m.ftype == "anomaly" then (acc.1, acc.2 ++ [m])
        else acc
      | none => acc)
    ([], [])

structure ReflexiveDecision where
  decision_type : DecisionType
  risk_level : RiskLevel
  reason : String
  violations : List Finding
  anomalies : List Finding
deriving Repr, DecidableEq

/-- `ReflexiveEngine._evaluate_action` after the monitors ran: assess risk,
map CRITICAL/HIGH to HALT, MEDIUM to ESCALATE, LOW-with-issues to MONITOR and
no issues to ALLOW, and store the findings as evidence. -/
def evaluateAction (results : List (Option Finding)) : ReflexiveDecision :=
  let (violations, anomalies) := collectFindings results
  if !violations.isEmpty || !anomalies.isEmpty then
    let counts :=
      toString violations.length ++ " violations, " ++ toString anomalies.length ++ " anomalies"
    let risk := assessRiskLevel violations anomalies
    match risk with
    | .critical => ⟨.halt, risk, "Critical risk detected: " ++ counts, violations, anomalies⟩
    | .high => ⟨.halt, risk, "High risk detected: " ++ counts, violations, anomalies⟩
    | .medium => ⟨.escalate, risk, "Medium risk detected: " ++ counts, violations, anomalies⟩
    | .low => ⟨.monitor, risk, "Low risk detected: " ++ counts, violations, anomalies⟩
  else ⟨.allow, .low, "No violations or anomalies detected", [], []⟩

/-- `ReflexiveEngine._log_decision`: with a ledger attached, build a
`LedgerEvent` whose type is the `EventType.REFLEXIVE_DECISION` attribute and
append it; the attribute is missing from the enum, so the lookup raises
`AttributeError`, the surrounding `except` swallows it, and the ledger is
left unchanged. -/
def logDecision (ledger : Option Ledger) (d : ReflexiveDecision) (ctx : ActionContext)
    (now : String) : Option Ledger :=
  match ledger with
  | none => none
  | some st =>
    match eventTypeMember "REFLEXIVE_DECISION" with
    | none => some st
    | some et =>
      some (appendEvent now
        { event_type := et, actor_id := "reflexive_core", resource_id := some ctx.action_id,
          action := "reflexive_" ++ d.decision_type.value, metadata := [],
          timestamp := now } st)

/-! ## Concrete instances used by the theorems below -/

/-- The scenario of spec §8 S6: a guest actor attempting admin access. -/
def guestAdminCtx : ActionContext :=
  { action_id := "act-1", actor_id := "guest_user", action_type := "admin_access",
    resource_id := none, metadata := [], timestamp := 36000 }

/-- The default monitors (policy, ledger, anomaly) in their initial state run
against the guest-admin action, with an (empty) ledger attached. -/
def guestAdminDecision : ReflexiveDecision :=
  evaluateAction
    [policyMonitorCall [] guestAdminCtx 36000,
     ledgerMonitorCall (some emptyLedger),
     anomalyDetectorCall emptyActorPatterns guestAdminCtx 36000]

/-- An RBAC configuration with a two-step inheritance chain
`a → b → c` where only `c` carries the permission `"p"`. -/
def chainCfg : RBACConfig :=
  { roles := [("a", ⟨"role a", []⟩), ("b", ⟨"role b", []⟩), ("c", ⟨"role c", ["p"]⟩)],
    permissions := [],
    role_hierarchy := [("a", ["b"]), ("b", ["c"])] }

/-- A DRAFT contract whose `expires_at` lies in the past. -/
def expiredDraftContract : Contract :=
  { id := "cid-1", title := "t", description := "d", clauses := [], parties := [],
    state := .draft, created_at := 0, proposed_at := none, signed_at := none,
    revoked_at := none, expires_at := some 5, signatures := [],
    is_hipaa_compliant := false, hipaa_entities := "[]", contract_metadata := [],
    version := "1.0.0", created_by := "u", last_modified := 0 }

/-- A REVOKED contract. -/
def revokedContract : Contract :=
  { expiredDraftContract with id := "cid-2", state := .revoked, expires_at := none }

/-- A PROPOSED two-party contract with one prior signature by `p1`. -/
def proposedContract : Contract :=
  { expiredDraftContract with
    id := "cid-3", state := .proposed, expires_at := none,
    parties := [⟨"p1", "Alice", "provider"⟩, ⟨"p2", "Bob", "patient"⟩],
    proposed_at := some 1,
    signatures := [⟨"p1", "provider", "sigA", "pkA", "1", []⟩] }

/-- A signing request by the second party. -/
def p2SignRequest : ContractSignRequest :=
  { signer_id := "p2", signer_type := "patient", public_key := "pkB",
    signature := "sigB", metadata := [] }

/-- The `Signature` object `sign_contract` builds from a request
(`timestamp` defaulting to the current instant). -/
def requestSignature (req : ContractSignRequest) (now : Nat) : Signature :=
  { signer_id := req.signer_id, signer_type := req.signer_type,
    signature := req.signature, public_key := req.public_key,
    timestamp := toString now, metadata := req.metadata }

/-- A single-policy registry whose policy raises `"boom"`. -/
def boomRegistry : List (String × PolicyFun Unit) :=
  [("p1", fun _ => .error "boom")]

/-- A registry with an allowing policy, a denying policy and a raising
policy. -/
def mixedRegistry : List (String × PolicyFun Unit) :=
  [("ok", fun _ => .ok (Decision.allow_decision "fine" [] none)),
   ("deny", fun _ => .ok (Decision.deny_decision "nope" [] (some [("policy", .s "deny")]))),
   ("raise", fun _ => .error "boom")]


/-- The six fields `get_content_hash` reads. -/
def coreFieldsEq (c' c : Contract) : Prop :=
  c'.id = c.id ∧ c'.title = c.title ∧ c'.description = c.description ∧
  c'.clauses = c.clauses ∧ c'.parties = c.parties ∧ c'.version = c.version

/-! # Theorems -/

/-- Sanity check against the FIPS 180-4 test vector for "abc". -/
theorem sha256hex_abc :
    sha256hex "abc" =
      "ba7816bf8f01cfea414140de5dae2223b00361a396177a9cb410ff61f20015ad" := by
  decide

/-- C2.  The claim asserts that for every leaf present at construction
(odd-sized leaf lists included) the generated proof verifies against the
root.  The code violates this: `_build_tree` pairs the last node of an odd
level with itself, but `generate_proof` only appends a path element `if
sibling_index < len(current_level)`, silently skipping the self-pairing step,
so the fold in `verify` misses one hashing step.  For leaves
`["a", "b", "c"]`, the proof generated for `"c"` fails to verify. -/
theorem C2_oddTree_lastLeaf_generated_proof_fails_verify :
    ((buildTree ["a", "b", "c"]).bind fun t => t.generateProof "c").map MerkleProof.verify =
      some false := by
  decide

/-- C7.  Submitting `{actor_id: "guest_user", action_type: "admin_access"}`
to the engine with the default monitors and an attached ledger yields a HALT
decision at HIGH risk with non-empty violation evidence — but the ledger
gains NO event: `_log_decision` accesses `EventType.REFLEXIVE_DECISION`,
which is not a member of the `EventType` enum, and the raised
`AttributeError` is swallowed by the surrounding `except`, leaving the
ledger unchanged (the claim and spec §3/§8 S6 say one `reflexive_decision`
event is appended). -/
theorem C7_guestAdmin_halts_high_but_no_ledger_event :
    guestAdminDecision.decision_type = .halt ∧
    guestAdminDecision.risk_level = .high ∧
    guestAdminDecision.violations ≠ [] ∧
    logDecision (some emptyLedger) guestAdminDecision guestAdminCtx "2024-01-01 10:00:00" =
      some emptyLedger := by
  refine ⟨by decide, by decide, by decide, ?_⟩
  decide

/-- C4 (counterexample).  `cleanup_expired` sets an expired DRAFT contract's
state to EXPIRED directly; `(DRAFT, EXPIRED)` is not an entry of the
transition table (`can_transition_to` rejects it), so not every state
transition performed by the engine's operations is a table entry. -/
theorem C4_cleanupExpired_leaves_transition_table :
    expiredDraftContract.state = .draft ∧
    (markExpired expiredDraftContract 10).state = .expired ∧
    expiredDraftContract.canTransitionTo .expired = false := by
  decide

/-- C9 (counterexample).  With hierarchy `a → b → c` and the permission `"p"`
granted only to `c`, the spec's transitive-closure permission set for a user
with role `a` contains `"p"` (so the claim says the user is permitted `"p"`),
but the code's `_get_user_permissions` collects only one level of
inheritance and the RBAC check denies. -/
theorem C9_inheritance_not_transitive :
    specPermitted chainCfg ["a"] "p" = true ∧
    checkPermission chainCfg (getUserPermissions chainCfg ["a"]) "p" = false := by
  decide

/-- C6 (counterexample).  When a policy raises, the deny decision's `reason`
is `f"Policy evaluation error: {e}"`: it contains the error but not the
policy name (which only appears in the `proof` map), contradicting the
claim's "reason includes the policy name and the error". -/
theorem C6_exception_reason_lacks_policy_name :
    (PolicyEngine.evaluate boomRegistry [] () (some ["p1"])).allow = false ∧
    (PolicyEngine.evaluate boomRegistry [] () (some ["p1"])).reason =
      "Policy evaluation error: boom" ∧
    listIsInfix ("p1".toList.map Char.toNat)
      (((PolicyEngine.evaluate boomRegistry [] () (some ["p1"])).reason).toList.map Char.toNat) =
      false := by
  decide

/-- A list has a surviving element under `filter p` iff some element
satisfies `p`. -/
theorem filter_not_isEmpty_eq_any (l : List α) (p : α → Bool) :
    (!(l.filter p).isEmpty) = l.any p := by
  induction l with
  | nil => rfl
  | cons x xs ih =>
    cases hpx : p x <;> simp [List.filter_cons, hpx, ← ih]

theorem assessRiskLevel_eq_spec (violations anomalies : List Finding) :
    assessRiskLevel violations anomalies = assessRiskLevelSpec violations anomalies := by
  simp only [assessRiskLevel, assessRiskLevelSpec, anySeverity, filter_not_isEmpty_eq_any]

theorem anySeverity_append_mono (v a : List Finding) (x : Finding) (s : String)
    (h : anySeverity v a s = true) : anySeverity (v ++ [x]) a s = true := by
  simp only [anySeverity, Bool.or_eq_true] at h ⊢
  rcases h with h | h
  · exact Or.inl (by simp [List.any_append, h])
  · exact Or.inr h

theorem sevCountCond_mono (v a : List Finding) (x : Finding) (s : String) (k : Nat)
    (h : (anySeverity v a s || decide (k ≤ v.length + a.length)) = true) :
    (anySeverity (v ++ [x]) a s || decide (k ≤ (v ++ [x]).length + a.length)) = true := by
  simp only [Bool.or_eq_true] at h ⊢
  rcases h with h | h
  · exact Or.inl (anySeverity_append_mono v a x s h)
  · refine Or.inr ?_
    simp only [List.length_append, List.length_cons, List.length_nil, decide_eq_true_eq] at h ⊢
    omega

theorem riskRank_ge_high (v a : List Finding)
    (h : (anySeverity v a "high" || decide (5 ≤ v.length + a.length)) = true) :
    2 ≤ riskRank (assessRiskLevelSpec v a) := by
  unfold assessRiskLevelSpec
  cases hc : anySeverity v a "critical" <;> simp [hc, h, riskRank]

theorem riskRank_ge_med (v a : List Finding)
    (h : (anySeverity v a "medium" || decide (2 ≤ v.length + a.length)) = true) :
    1 ≤ riskRank (assessRiskLevelSpec v a) := by
  unfold assessRiskLevelSpec
  cases hc : anySeverity v a "critical" <;>
    cases hh : (anySeverity v a "high" || decide (5 ≤ v.length + a.length)) <;>
      simp [hc, hh, h, riskRank]

theorem riskRank_le_three (r : RiskLevel) : riskRank r ≤ 3 := by
  cases r <;> simp [riskRank]

theorem assessSpec_mono (v a : List Finding) (x : Finding) :
    riskRank (assessRiskLevelSpec v a) ≤ riskRank (assessRiskLevelSpec (v ++ [x]) a) := by
  cases hc : anySeverity v a "critical" with
  | true =>
    have hR : assessRiskLevelSpec (v ++ [x]) a = .critical := by
      unfold assessRiskLevelSpec
      simp [anySeverity_append_mono v a x "critical" hc]
    rw [hR]
    exact riskRank_le_three _
  | false =>
    cases hh : (anySeverity v a "high" || decide (5 ≤ v.length + a.length)) with
    | true =>
      have hL : assessRiskLevelSpec v a = .high := by
        unfold assessRiskLevelSpec; simp [hc, hh]
      rw [hL]
      exact riskRank_ge_high _ _ (sevCountCond_mono v a x "high" 5 hh)
    | false =>
      cases hm : (anySeverity v a "medium" || decide (2 ≤ v.length + a.length)) with
      | true =>
        have hL : assessRiskLevelSpec v a = .medium := by
          unfold assessRiskLevelSpec; simp [hc, hh, hm]
        rw [hL]
        exact riskRank_ge_med _ _ (sevCountCond_mono v a x "medium" 2 hm)
      | false =>
        have hL : assessRiskLevelSpec v a = .low := by
          unfold assessRiskLevelSpec; simp [hc, hh, hm]
        rw [hL]
        exact Nat.zero_le _

/-- C8.  The risk assessment maps violation/anomaly lists exactly as the spec
states (CRITICAL on any critical severity; else HIGH on any high severity or
≥ 5 issues; else MEDIUM on any medium severity or ≥ 2 issues; else LOW), and
appending one more violation never lowers the resulting level. -/
theorem C8_riskLevel_as_specified_and_monotone
    (violations anomalies : List Finding) (x : Finding) :
    assessRiskLevel violations anomalies = assessRiskLevelSpec violations anomalies ∧
    riskRank (assessRiskLevel violations anomalies) ≤
      riskRank (assessRiskLevel (violations ++ [x]) anomalies) := by
  refine ⟨assessRiskLevel_eq_spec .., ?_⟩
  rw [assessRiskLevel_eq_spec, assessRiskLevel_eq_spec]
  exact assessSpec_mono violations anomalies x


theorem coreFieldsEq_refl (c : Contract) : coreFieldsEq c c :=
  ⟨rfl, rfl, rfl, rfl, rfl, rfl⟩

theorem coreFieldsEq_trans {c₁ c₂ c₃ : Contract}
    (h : coreFieldsEq c₁ c₂) (h' : coreFieldsEq c₂ c₃) : coreFieldsEq c₁ c₃ := by
  obtain ⟨a1, a2, a3, a4, a5, a6⟩ := h
  obtain ⟨b1, b2, b3, b4, b5, b6⟩ := h'
  exact ⟨a1.trans b1, a2.trans b2, a3.trans b3, a4.trans b4, a5.trans b5, a6.trans b6⟩

theorem contentHash_of_coreFieldsEq {c' c : Contract} (h : coreFieldsEq c' c) :
    c'.get_content_hash = c.get_content_hash := by
  obtain ⟨h1, h2, h3, h4, h5, h6⟩ := h
  simp [Contract.get_content_hash, h1, h2, h3, h4, h5, h6]

theorem signingMessage_of_coreFieldsEq {c' c : Contract} (h : coreFieldsEq c' c)
    (sid sty : String) : signingMessage c' sid sty = signingMessage c sid sty := by
  simp [signingMessage, h.1, contentHash_of_coreFieldsEq h]

theorem updateContractState_core {c : Contract} {s : ContractState} {u : String}
    {m : List (String × String)} {now : Nat} {c' : Contract}
    (h : updateContractState c s u m now = .ok c') : coreFieldsEq c' c := by
  unfold updateContractState at h
  by_cases hc : (!c.canTransitionTo s) = true
  · rw [if_pos hc] at h
    exact Except.noConfusion h
  · rw [if_neg hc] at h
    injection h with h
    subst h
    cases s <;> dsimp only <;> split_ifs <;> exact ⟨rfl, rfl, rfl, rfl, rfl, rfl⟩

theorem addSignature_core {verifySig : String → String → String → Bool} {c : Contract}
    {sig : Signature} {now : Nat} {c' : Contract}
    (h : addSignature verifySig c sig now = .ok c') : coreFieldsEq c' c := by
  unfold addSignature at h
  by_cases h1 : (!(c.state == .proposed || c.state == .signed)) = true
  · rw [if_pos h1] at h
    exact Except.noConfusion h
  · rw [if_neg h1] at h
    by_cases h2 : (!(verifyContractSignature verifySig c sig)) = true
    · rw [if_pos h2] at h
      exact Except.noConfusion h
    · rw [if_neg h2] at h
      dsimp only at h
      by_cases h3 :
          (Contract.isFullySigned { c with signatures := c.signatures ++ [sig] } &&
            ({ c with signatures := c.signatures ++ [sig] } : Contract).state ==
              ContractState.proposed) = true
      · rw [if_pos h3] at h
        cases heq : updateContractState { c with signatures := c.signatures ++ [sig] }
            ContractState.signed sig.signer_id [] now with
        | error e =>
          rw [heq] at h
          exact Except.noConfusion h
        | ok c2 =>
          rw [heq] at h
          injection h with h
          subst h
          have e1 : coreFieldsEq { c2 with last_modified := now } c2 :=
            ⟨rfl, rfl, rfl, rfl, rfl, rfl⟩
          have e2 := updateContractState_core heq
          have e3 : coreFieldsEq { c with signatures := c.signatures ++ [sig] } c :=
            ⟨rfl, rfl, rfl, rfl, rfl, rfl⟩
          exact coreFieldsEq_trans (coreFieldsEq_trans e1 e2) e3
      · rw [if_neg h3] at h
        injection h with h
        subst h
        exact ⟨rfl, rfl, rfl, rfl, rfl, rfl⟩

theorem signContract_core {verifySig : String → String → String → Bool} {c : Contract}
    {req : ContractSignRequest} {now : Nat} {c' : Contract}
    (h : signContract verifySig c req now = .ok c') : coreFieldsEq c' c := by
  unfold signContract at h
  split_ifs at h
  exact addSignature_core h

theorem proposeContract_core {c : Contract} {pt : List String} {msg : Option String}
    {pb : String} {now : Nat} {c' : Contract}
    (h : proposeContract c pt msg pb now = .ok c') : coreFieldsEq c' c := by
  unfold proposeContract at h
  split_ifs at h
  exact updateContractState_core h

theorem revokeContract_core {c : Contract} {reason rb : String}
    {m : List (String × String)} {now : Nat} {c' : Contract}
    (h : revokeContract c reason rb m now = .ok c') : coreFieldsEq c' c := by
  unfold revokeContract at h
  split_ifs at h
  dsimp only at h
  exact coreFieldsEq_trans (updateContractState_core h) ⟨rfl, rfl, rfl, rfl, rfl, rfl⟩

theorem markExpired_core (c : Contract) (now : Nat) : coreFieldsEq (markExpired c now) c := by
  unfold markExpired
  split_ifs <;> exact ⟨rfl, rfl, rfl, rfl, rfl, rfl⟩

/-- C10.  The contract content hash reads only
`{id, title, description, clauses, parties, version}`; adding a signature and
every state-changing operation (propose, sign with its auto-transition,
revoke, expiry cleanup, and the central `update_contract_state`) leave it
unchanged, so every signer of a contract signs the same
`{id}:{content_hash}:{signer_id}:{signer_type}` message regardless of
signing order. -/
theorem C10_contentHash_frame (verifySig : String → String → String → Bool) (c : Contract)
    (s : ContractState) (u : String) (m : List (String × String)) (now : Nat)
    (sig : Signature) (req : ContractSignRequest) (pt : List String) (msg : Option String)
    (pb reason rb sid sty : String) :
    ((updateContractState c s u m now).toOption.all fun c' =>
      c'.get_content_hash == c.get_content_hash) = true ∧
    ((addSignature verifySig c sig now).toOption.all fun c' =>
      c'.get_content_hash == c.get_content_hash) = true ∧
    ((signContract verifySig c req now).toOption.all fun c' =>
      c'.get_content_hash == c.get_content_hash) = true ∧
    ((proposeContract c pt msg pb now).toOption.all fun c' =>
      c'.get_content_hash == c.get_content_hash) = true ∧
    ((revokeContract c reason rb m now).toOption.all fun c' =>
      c'.get_content_hash == c.get_content_hash) = true ∧
    (markExpired c now).get_content_hash = c.get_content_hash ∧
    ((signContract verifySig c req now).toOption.all fun c' =>
      signingMessage c' sid sty == signingMessage c sid sty) = true := by
  refine ⟨?_, ?_, ?_, ?_, ?_, ?_, ?_⟩
  · cases h : updateContractState c s u m now with
    | error e => rfl
    | ok c' =>
      exact beq_iff_eq.mpr (contentHash_of_coreFieldsEq (updateContractState_core h))
  · cases h : addSignature verifySig c sig now with
    | error e => rfl
    | ok c' => exact beq_iff_eq.mpr (contentHash_of_coreFieldsEq (addSignature_core h))
  · cases h : signContract verifySig c req now with
    | error e => rfl
    | ok c' => exact beq_iff_eq.mpr (contentHash_of_coreFieldsEq (signContract_core h))
  · cases h : proposeContract c pt msg pb now with
    | error e => rfl
    | ok c' => exact beq_iff_eq.mpr (contentHash_of_coreFieldsEq (proposeContract_core h))
  · cases h : revokeContract c reason rb m now with
    | error e => rfl
    | ok c' => exact beq_iff_eq.mpr (contentHash_of_coreFieldsEq (revokeContract_core h))
  · exact contentHash_of_coreFieldsEq (markExpired_core c now)
  · cases h : signContract verifySig c req now with
    | error e => rfl
    | ok c' =>
      exact beq_iff_eq.mpr (signingMessage_of_coreFieldsEq (signContract_core h) sid sty)

theorem updateContractState_state {c : Contract} {s : ContractState} {u : String}
    {m : List (String × String)} {now : Nat} {c' : Contract}
    (h : updateContractState c s u m now = .ok c') :
    c'.state = s ∧ c.canTransitionTo s = true := by
  unfold updateContractState at h
  by_cases hc : (!c.canTransitionTo s) = true
  · rw [if_pos hc] at h
    exact Except.noConfusion h
  · rw [if_neg hc] at h
    injection h with h
    subst h
    refine ⟨?_, by simpa using hc⟩
    cases s <;> dsimp only <;> split_ifs <;> rfl

/-- C4 (amended).  Every transition performed through the central
`update_contract_state` is a table entry that lands in the requested state;
no operation (state update, signing, proposing, revoking, expiry cleanup)
ever changes a REVOKED or EXPIRED contract; and `cleanup_expired` either
leaves a contract alone or moves a non-terminal contract directly to
EXPIRED — a transition outside the table. -/
theorem C4_transitions_amended (verifySig : String → String → String → Bool) (c : Contract)
    (s : ContractState) (u : String) (m : List (String × String)) (now : Nat)
    (sig : Signature) (req : ContractSignRequest) (pt : List String) (msg : Option String)
    (pb reason rb : String) :
    ((updateContractState c s u m now).toOption.all fun c' =>
      c'.state == s && c.canTransitionTo s) = true ∧
    (c.state = .revoked ∨ c.state = .expired →
      (updateContractState c s u m now).isOk = false ∧
      (addSignature verifySig c sig now).isOk = false ∧
      (signContract verifySig c req now).isOk = false ∧
      (proposeContract c pt msg pb now).isOk = false ∧
      (revokeContract c reason rb m now).isOk = false ∧
      markExpired c now = c) ∧
    (markExpired c now = c ∨
      (c.state ≠ .revoked ∧ c.state ≠ .expired ∧ (markExpired c now).state = .expired)) := by
  refine ⟨?_, ?_, ?_⟩
  · cases h : updateContractState c s u m now with
    | error e => rfl
    | ok c' =>
      obtain ⟨h1, h2⟩ := updateContractState_state h
      simp [Except.toOption, h1, h2]
  · intro hterm
    have hct : c.canTransitionTo s = false := by
      rcases hterm with h | h <;> simp [Contract.canTransitionTo, h]
    refine ⟨?_, ?_, ?_, ?_, ?_, ?_⟩
    · simp [updateContractState, hct, Except.isOk, Except.toBool]
    · rcases hterm with h | h <;> simp [addSignature, h, Except.isOk, Except.toBool]
    · rcases hterm with h | h <;> simp [signContract, h, Except.isOk, Except.toBool]
    · rcases hterm with h | h <;> simp [proposeContract, h, Except.isOk, Except.toBool]
    · rcases hterm with h | h <;> simp [revokeContract, h, Except.isOk, Except.toBool]
    · rcases hterm with h | h <;>
        cases hx : c.expires_at <;> simp [markExpired, isExpiredCandidate, hx, h]
  · by_cases hcand : isExpiredCandidate c now = true
    · refine Or.inr ⟨?_, ?_, by simp [markExpired, hcand]⟩ <;>
      · intro hst
        unfold isExpiredCandidate at hcand
        cases hx : c.expires_at with
        | none => rw [hx] at hcand; exact Bool.noConfusion hcand
        | some t =>
          rw [hx] at hcand
          simp only [Bool.and_eq_true] at hcand
          obtain ⟨-, h2⟩ := hcand
          simp [hst] at h2
    · exact Or.inl (by simp [markExpired, hcand])

/-- C4 (witness): a REVOKED contract is untouched by every operation. -/
theorem C4_transitions_amended_witness :
    revokedContract.state = .revoked ∧
    (updateContractState revokedContract .signed "u" [] 7).isOk = false ∧
    (signContract (fun _ _ _ => true) revokedContract p2SignRequest 7).isOk = false ∧
    markExpired revokedContract 7 = revokedContract := by
  have h := (C4_transitions_amended (fun _ _ _ => true) revokedContract .signed "u" [] 7
    ⟨"s", "t", "sig", "pk", "7", []⟩ p2SignRequest [] none "pb" "r" "rb").2.1 (Or.inl rfl)
  exact ⟨rfl, h.1, h.2.2.1, h.2.2.2.2.2⟩

theorem updateContractState_isOk (c : Contract) (s : ContractState) (u : String)
    (m : List (String × String)) (now : Nat) :
    (updateContractState c s u m now).isOk = c.canTransitionTo s := by
  unfold updateContractState
  cases hb : c.canTransitionTo s with
  | false => rw [if_pos (by simp [hb])]; simp [Except.isOk, Except.toBool]
  | true => rw [if_neg (by simp [hb])]; simp [Except.isOk, Except.toBool]

theorem updateContractState_signed_at {c : Contract} {u : String}
    {m : List (String × String)} {now : Nat} {c' : Contract}
    (h : updateContractState c .signed u m now = .ok c') :
    c'.signed_at.isSome = true := by
  unfold updateContractState at h
  by_cases hc : (!c.canTransitionTo .signed) = true
  · rw [if_pos hc] at h
    exact Except.noConfusion h
  · rw [if_neg hc] at h
    injection h with h
    subst h
    dsimp only
    split_ifs with h1 h2 <;> cases hx : c.signed_at <;> simp_all

theorem updateContractState_signatures {c : Contract} {s : ContractState} {u : String}
    {m : List (String × String)} {now : Nat} {c' : Contract}
    (h : updateContractState c s u m now = .ok c') :
    c'.signatures = c.signatures := by
  unfold updateContractState at h
  by_cases hc : (!c.canTransitionTo s) = true
  · rw [if_pos hc] at h
    exact Except.noConfusion h
  · rw [if_neg hc] at h
    injection h with h
    subst h
    cases s <;> dsimp only <;> split_ifs <;> rfl

/-- C5.  `sign` requires state PROPOSED or SIGNED, rejects a second signature
from a signer already present, fails when the supplied signature does not
verify over `{id}:{content_hash}:{signer_id}:{signer_type}` under the
supplied public key, and otherwise appends the signature; if afterwards every
`party.id` is covered and the state was PROPOSED, the contract moves to
SIGNED with `signed_at` stamped, otherwise the state is unchanged. -/
theorem C5_sign_contract (verifySig : String → String → String → Bool) (c : Contract)
    (req : ContractSignRequest) (now : Nat) :
    ((signContract verifySig c req now).isOk = true →
      c.state = .proposed ∨ c.state = .signed) ∧
    (c.signatures.any (·.signer_id == req.signer_id) = true →
      (signContract verifySig c req now).isOk = false) ∧
    (verifySig req.public_key (signingMessage c req.signer_id req.signer_type) req.signature
        = false →
      (signContract verifySig c req now).isOk = false) ∧
    ((c.state = .proposed ∨ c.state = .signed) →
      c.signatures.any (·.signer_id == req.signer_id) = false →
      verifySig req.public_key (signingMessage c req.signer_id req.signer_type) req.signature
        = true →
      ∃ c', signContract verifySig c req now = .ok c' ∧
        c'.signatures = c.signatures ++ [requestSignature req now] ∧
        ((Contract.isFullySigned
              { c with signatures := c.signatures ++ [requestSignature req now] } &&
            c.state == .proposed) = true →
          c'.state = .signed ∧ c'.signed_at.isSome = true) ∧
        ((Contract.isFullySigned
              { c with signatures := c.signatures ++ [requestSignature req now] } &&
            c.state == .proposed) = false →
          c'.state = c.state)) := by
  refine ⟨?_, ?_, ?_, ?_⟩
  · intro h
    by_cases hb : (c.state == .proposed || c.state == .signed) = true
    · simpa using hb
    · exfalso
      unfold signContract at h
      rw [if_pos (by simp [Bool.not_eq_true] at hb ⊢; exact hb)] at h
      exact Bool.noConfusion h
  · intro hdup
    unfold signContract
    by_cases hb : (!(c.state == .proposed || c.state == .signed)) = true
    · rw [if_pos hb]; rfl
    · rw [if_neg hb, if_pos hdup]; rfl
  · intro hv
    unfold signContract
    by_cases hb : (!(c.state == .proposed || c.state == .signed)) = true
    · rw [if_pos hb]; rfl
    · rw [if_neg hb]
      by_cases hdup : c.signatures.any (·.signer_id == req.signer_id) = true
      · rw [if_pos hdup]; rfl
      · rw [if_neg hdup, if_pos (by simp [hv])]; rfl
  · intro hstate hdup hv
    have hb : (c.state == .proposed || c.state == .signed) = true := by
      rcases hstate with h | h <;> simp [h]
    unfold signContract
    rw [if_neg (by simp [hb]), if_neg (by simp [hdup]), if_neg (by simp [hv])]
    unfold addSignature
    rw [if_neg (by simp [hb]),
        if_neg (by simp [verifyContractSignature, requestSignature, hv])]
    dsimp only
    rw [show Signature.mk req.signer_id req.signer_type req.signature req.public_key
        (toString now) req.metadata = requestSignature req now from rfl]
    by_cases h3 :
        (Contract.isFullySigned { c with signatures := c.signatures ++ [requestSignature req now] } &&
          ({ c with signatures := c.signatures ++ [requestSignature req now] } : Contract).state ==
            ContractState.proposed) = true
    · rw [if_pos h3]
      have hp : c.state = .proposed := by
        have h3' := h3
        simp only [Bool.and_eq_true] at h3'
        simpa using h3'.2
      have hcan : Contract.canTransitionTo
          { c with signatures := c.signatures ++ [requestSignature req now] }
          ContractState.signed = true := by
        simp [Contract.canTransitionTo, hp]
      cases heq : updateContractState
          { c with signatures := c.signatures ++ [requestSignature req now] }
          ContractState.signed req.signer_id [] now with
      | error e =>
        exfalso
        have hok := updateContractState_isOk
          { c with signatures := c.signatures ++ [requestSignature req now] }
          ContractState.signed req.signer_id [] now
        rw [heq, hcan] at hok
        simp [Except.isOk, Except.toBool] at hok
      | ok c2 =>
        dsimp only
        refine ⟨{ c2 with last_modified := now }, rfl, ?_, ?_, ?_⟩
        · have := updateContractState_signatures heq
          simpa using this
        · intro _
          have hst := (updateContractState_state heq).1
          have hsa := updateContractState_signed_at heq
          exact ⟨hst, hsa⟩
        · intro hfalse
          rw [show (({ c with signatures := c.signatures ++ [requestSignature req now] } : Contract).state ==
              ContractState.proposed) = (c.state == ContractState.proposed) from rfl] at h3
          rw [h3] at hfalse
          exact Bool.noConfusion hfalse
    · rw [if_neg h3]
      refine ⟨_, rfl, rfl, ?_, fun _ => rfl⟩
      intro htrue
      rw [show (({ c with signatures := c.signatures ++ [requestSignature req now] } : Contract).state ==
          ContractState.proposed) = (c.state == ContractState.proposed) from rfl] at h3
      exact absurd htrue h3

/-- C5 (witness): with both checks passing, the second party's signature on a
two-party PROPOSED contract is appended and auto-transitions it to SIGNED. -/
theorem C5_sign_contract_witness :
    proposedContract.state = .proposed ∧
    ∃ c', signContract (fun _ _ _ => true) proposedContract p2SignRequest 2 = .ok c' ∧
      c'.signatures = proposedContract.signatures ++ [requestSignature p2SignRequest 2] ∧
      c'.state = .signed ∧ c'.signed_at.isSome = true := by
  refine ⟨rfl, ?_⟩
  obtain ⟨c', h1, h2, h3, -⟩ :=
    (C5_sign_contract (fun _ _ _ => true) proposedContract p2SignRequest 2).2.2.2
      (Or.inl rfl) (by decide) rfl
  obtain ⟨h4, h5⟩ := h3 (by decide)
  exact ⟨c', h1, h2, h4, h5⟩

theorem evalLoop_cons {α : Type} (registry : List (String × PolicyFun α)) (context : α)
    (n : String) (rest : List String) :
    evalPoliciesLoop registry context (n :: rest) =
      (match getPolicy registry n with
       | none => evalPoliciesLoop registry context rest
       | some p =>
         match p context with
         | .ok d => if !d.allow then some d else evalPoliciesLoop registry context rest
         | .error e =>
           some (Decision.deny_decision ("Policy evaluation error: " ++ e) []
             (some [("policy", .s n), ("error", .s e)]))) := rfl

theorem evalLoop_none {α : Type} (registry : List (String × PolicyFun α)) (context : α)
    (ns : List String)
    (h : ∀ m ∈ ns, ∀ q, getPolicy registry m = some q →
      ∃ dm, q context = .ok dm ∧ dm.allow = true) :
    evalPoliciesLoop registry context ns = none := by
  induction ns with
  | nil => rfl
  | cons n rest ih =>
    rw [evalLoop_cons]
    cases hq : getPolicy registry n with
    | none =>
      dsimp only
      exact ih fun m hm => h m (List.mem_cons_of_mem _ hm)
    | some q =>
      dsimp only
      obtain ⟨dm, hdm, hallow⟩ := h n (List.mem_cons_self _ _) q hq
      rw [hdm]
      dsimp only
      rw [if_neg (by simp [hallow])]
      exact ih fun m hm => h m (List.mem_cons_of_mem _ hm)

theorem evalLoop_append_none {α : Type} (registry : List (String × PolicyFun α)) (context : α)
    (ns₁ ns₂ : List String) (h : evalPoliciesLoop registry context ns₁ = none) :
    evalPoliciesLoop registry context (ns₁ ++ ns₂) = evalPoliciesLoop registry context ns₂ := by
  induction ns₁ with
  | nil => rfl
  | cons n rest ih =>
    rw [List.cons_append]
    rw [evalLoop_cons] at h ⊢
    cases hq : getPolicy registry n with
    | none =>
      rw [hq] at h
      dsimp only at h ⊢
      exact ih h
    | some q =>
      rw [hq] at h
      dsimp only at h ⊢
      cases hd : q context with
      | ok d =>
        rw [hd] at h
        dsimp only at h ⊢
        by_cases ha : (!d.allow) = true
        · rw [if_pos ha] at h
          exact Option.noConfusion h
        · rw [if_neg ha] at h ⊢
          exact ih h
      | error e =>
        rw [hd] at h
        dsimp only at h
        exact Option.noConfusion h

/-- C6 (amended).  `evaluate` walks the requested policies in order, skipping
unknown names: the first deny is returned unchanged; the first raised
exception yields — without propagating — a deny decision whose reason is
`"Policy evaluation error: {error}"` and whose proof map records the policy
name and the error (the reason itself does not name the policy); if every
evaluated policy allows, the aggregate allow decision carries the full
requested name list as its `evaluated_policies` evidence. -/
theorem C6_policy_engine_amended {α : Type} (registry : List (String × PolicyFun α))
    (order : List String) (context : α) (names names₁ names₂ : List String) (n : String)
    (p : PolicyFun α) (d : Decision) (e : String) :
    ((∀ m ∈ names₁, ∀ q, getPolicy registry m = some q →
        ∃ dm, q context = .ok dm ∧ dm.allow = true) →
      getPolicy registry n = some p → p context = .ok d → d.allow = false →
      PolicyEngine.evaluate registry order context (some (names₁ ++ n :: names₂)) = d) ∧
    ((∀ m ∈ names₁, ∀ q, getPolicy registry m = some q →
        ∃ dm, q context = .ok dm ∧ dm.allow = true) →
      getPolicy registry n = some p → p context = .error e →
      PolicyEngine.evaluate registry order context (some (names₁ ++ n :: names₂)) =
        Decision.deny_decision ("Policy evaluation error: " ++ e) []
          (some [("policy", .s n), ("error", .s e)])) ∧
    ((∀ m ∈ names, ∀ q, getPolicy registry m = some q →
        ∃ dm, q context = .ok dm ∧ dm.allow = true) →
      PolicyEngine.evaluate registry order context (some names) =
        Decision.allow_decision "All policies evaluated successfully" []
          (some [("evaluated_policies", .list names)])) := by
  refine ⟨?_, ?_, ?_⟩
  · intro hpre hp hd hda
    unfold PolicyEngine.evaluate
    dsimp only
    rw [evalLoop_append_none registry context names₁ (n :: names₂)
      (evalLoop_none registry context names₁ hpre)]
    rw [evalLoop_cons, hp]
    dsimp only
    rw [hd]
    dsimp only
    rw [if_pos (by simp [hda])]
  · intro hpre hp he
    unfold PolicyEngine.evaluate
    dsimp only
    rw [evalLoop_append_none registry context names₁ (n :: names₂)
      (evalLoop_none registry context names₁ hpre)]
    rw [evalLoop_cons, hp]
    dsimp only
    rw [he]
  · intro hall
    unfold PolicyEngine.evaluate
    dsimp only
    rw [evalLoop_none registry context names hall]

/-- C6 (witness): with an allowing policy first, the denying policy's
decision is returned unchanged. -/
theorem C6_policy_engine_amended_witness :
    PolicyEngine.evaluate mixedRegistry [] () (some ["ok", "deny", "raise"]) =
      Decision.deny_decision "nope" [] (some [("policy", .s "deny")]) := by
  have h := (C6_policy_engine_amended mixedRegistry [] () [] ["ok"] ["raise"] "deny"
      (fun _ => .ok (Decision.deny_decision "nope" [] (some [("policy", .s "deny")])))
      (Decision.deny_decision "nope" [] (some [("policy", .s "deny")])) "unused").1
  refine h ?_ rfl rfl rfl
  intro m hm q hq
  have hm' : m = "ok" := List.mem_singleton.mp hm
  subst hm'
  injection hq with hq
  subst hq
  exact ⟨Decision.allow_decision "fine" [] none, rfl, rfl⟩

theorem inheritedPermsFold_factor (cfg : RBACConfig) (inh : List String) (acc : List String) :
    inheritedPermsFold cfg inh acc = acc ++ inheritedPermsFold cfg inh [] := by
  induction inh generalizing acc with
  | nil => simp [inheritedPermsFold]
  | cons ir rest ih =>
    unfold inheritedPermsFold
    simp only [List.foldl_cons]
    cases h : alistLookup cfg.roles ir with
    | none =>
      dsimp only
      exact ih acc
    | some ird =>
      dsimp only
      show inheritedPermsFold cfg rest (acc ++ ird.permissions) =
        acc ++ inheritedPermsFold cfg rest ([] ++ ird.permissions)
      rw [ih (acc ++ ird.permissions), ih ([] ++ ird.permissions)]
      simp [List.append_assoc]

theorem checkPermission_star (cfg : RBACConfig) (l : List String) (a : String)
    (h : l.contains "*" = true) : checkPermission cfg l a = true := by
  simp only [checkPermission, h, Bool.true_or, Bool.or_eq_true]

theorem getUserPermissionsGo_check (cfg : RBACConfig) (a : String) :
    ∀ (roles acc : List String),
      checkPermission cfg (getUserPermissionsGo cfg roles acc) a =
        checkPermission cfg (acc ++ oneLevelPermissions cfg roles) a := by
  intro roles
  induction roles with
  | nil =>
    intro acc
    simp [getUserPermissionsGo, oneLevelPermissions]
  | cons r rest ih =>
    intro acc
    unfold getUserPermissionsGo oneLevelPermissions
    cases hl : alistLookup cfg.roles r with
    | none =>
      dsimp only
      rw [ih acc]
      simp
    | some rd =>
      dsimp only
      cases hw : rd.permissions.contains "*" with
      | true =>
        rw [if_pos rfl, if_pos rfl]
        rw [checkPermission_star cfg ["*"] a (by decide)]
        have hstar : (acc ++ (rd.permissions ++ oneLevelPermissions cfg rest)).contains "*"
            = true := by
          have hmem : "*" ∈ rd.permissions := by simpa using hw
          simp [hmem]
        rw [checkPermission_star cfg _ a hstar]
      | false =>
        rw [if_neg (by simp), if_neg (by simp)]
        rw [ih, inheritedPermsFold_factor]
        simp [List.append_assoc]

/-- C9 (amended).  The RBAC permission set is the union of the direct
permissions of the user's roles and of the roles they *directly* inherit via
`role_hierarchy` — one level only, not the transitive closure (a role whose
direct permissions include `*` short-circuits everything) — and a user is
permitted an action iff that one-level set contains `*`, the action, or a
permission whose configured synonym list includes the action. -/
theorem C9_rbac_one_level_inheritance (cfg : RBACConfig) (user_roles : List String)
    (action : String) :
    checkPermission cfg (getUserPermissions cfg user_roles) action =
      checkPermission cfg (oneLevelPermissions cfg user_roles) action := by
  have h := getUserPermissionsGo_check cfg action user_roles []
  simpa [getUserPermissions] using h

/-! ### Ledger invariant lemmas -/

theorem sealBlock_entries (now : String) (st : Ledger) :
    (sealBlock now st).entries = st.entries := by
  unfold sealBlock
  cases st.current_block <;> dsimp only <;> split_ifs <;> rfl

theorem sealBlock_cur_seq (now : String) (st : Ledger) :
    (sealBlock now st).current_sequence = st.current_sequence := by
  unfold sealBlock
  cases st.current_block <;> dsimp only <;> split_ifs <;> rfl

theorem sealBlock_block_size (now : String) (st : Ledger) :
    (sealBlock now st).block_size = st.block_size := by
  unfold sealBlock
  cases st.current_block <;> dsimp only <;> split_ifs <;> rfl

theorem appendEvent_entries (now : String) (ev : LedgerEvent) (st : Ledger) :
    (appendEvent now ev st).entries = st.entries ++ [appendNewEntry now ev st] := by
  unfold appendEvent
  dsimp only
  split_ifs <;> simp [sealBlock_entries]

theorem appendEvent_cur_seq (now : String) (ev : LedgerEvent) (st : Ledger) :
    (appendEvent now ev st).current_sequence = st.current_sequence + 1 := by
  unfold appendEvent
  dsimp only
  split_ifs <;> simp [sealBlock_cur_seq]

theorem appendEvent_block_size (now : String) (ev : LedgerEvent) (st : Ledger) :
    (appendEvent now ev st).block_size = st.block_size := by
  unfold appendEvent
  dsimp only
  split_ifs <;> simp [sealBlock_block_size]

theorem range'_one_concat (n : Nat) : List.range' 1 (n + 1) = List.range' 1 n ++ [n + 1] := by
  rw [List.range'_concat]
  simp [Nat.add_comm]

theorem find_seq_eq_get (l : List LedgerEntryRec) :
    ∀ (s n : Nat), l.map (·.sequence_number) = List.range' s l.length → s ≤ n →
      l.find? (·.sequence_number == n) = l.get? (n - s) := by
  induction l with
  | nil => intro s n _ _; simp
  | cons e rest ih =>
    intro s n hseq hn
    rw [show (e :: rest).length = rest.length + 1 from rfl, List.range'_succ] at hseq
    rw [show (e :: rest).map (·.sequence_number) =
      e.sequence_number :: rest.map (·.sequence_number) from rfl] at hseq
    injection hseq with h1 h2
    by_cases hns : n = s
    · subst hns
      have : (e.sequence_number == n) = true := by simp [h1]
      simp [List.find?_cons, this, Nat.sub_self]
    · have hlt : s + 1 ≤ n := by omega
      have hfalse : (e.sequence_number == n) = false := by
        simp only [beq_eq_false_iff_ne]
        omega
      rw [List.find?_cons, hfalse]
      rw [ih (s + 1) n h2 hlt]
      rw [show n - s = (n - (s + 1)) + 1 by omega]
      rfl

theorem getLast?_of_seqs (l : List LedgerEntryRec)
    (hseq : l.map (·.sequence_number) = List.range' 1 l.length) :
    l.find? (·.sequence_number == l.length) = l.getLast? := by
  cases hl : l.length with
  | zero =>
    have : l = [] := List.length_eq_zero.mp hl
    subst this
    rfl
  | succ k =>
    rw [show k + 1 = l.length from hl.symm]
    rw [find_seq_eq_get l 1 l.length hseq (by omega), List.getLast?_eq_get?]

theorem chainLinked_append (l : List LedgerEntryRec) (e : LedgerEntryRec) :
    ∀ p, chainLinked p (l ++ [e]) =
      (chainLinked p l && (e.previous_hash == lastHashOpt p l)) := by
  induction l with
  | nil =>
    intro p
    simp [chainLinked, lastHashOpt]
  | cons x rest ih =>
    intro p
    rw [List.cons_append]
    have hstep : chainLinked p (x :: (rest ++ [e])) =
        ((x.previous_hash == p) && chainLinked (some x.entry_hash) (rest ++ [e])) := rfl
    have hstep2 : chainLinked p (x :: rest) =
        ((x.previous_hash == p) && chainLinked (some x.entry_hash) rest) := rfl
    rw [hstep, hstep2, ih (some x.entry_hash)]
    have hlast : lastHashOpt p (x :: rest) = lastHashOpt (some x.entry_hash) rest := by
      unfold lastHashOpt
      cases rest with
      | nil => rfl
      | cons y ys =>
        rw [List.getLast?_cons_cons]
        cases hz : (y :: ys).getLast? with
        | none =>
          exact absurd (List.getLast?_eq_none_iff.mp hz) (by simp)
        | some z => rfl
    rw [hlast, Bool.and_assoc]

theorem appendPrevHash_eq (st : Ledger)
    (hseq : st.entries.map (·.sequence_number) = List.range' 1 st.entries.length)
    (hcur : st.current_sequence = st.entries.length + 1) :
    appendPrevHash st = lastHashOpt none st.entries := by
  unfold appendPrevHash
  cases hl : st.entries.length with
  | zero =>
    have hempty : st.entries = [] := List.length_eq_zero.mp hl
    rw [if_neg (by omega)]
    rw [hempty]
    rfl
  | succ k =>
    rw [if_pos (by omega)]
    unfold getEntryBySeq
    rw [show st.current_sequence - 1 = st.entries.length from by omega]
    rw [getLast?_of_seqs st.entries hseq]
    unfold lastHashOpt
    cases hlast : st.entries.getLast? with
    | none =>
      exfalso
      have : st.entries = [] := List.getLast?_eq_none_iff.mp hlast
      rw [this] at hl
      exact Nat.noConfusion hl
    | some x => rfl

theorem bumpBlock_map_number (n s : Nat) (bs : List LedgerBlockRec) :
    (bumpBlock n s bs).map (·.block_number) = bs.map (·.block_number) := by
  unfold bumpBlock
  rw [List.map_map]
  apply List.map_congr_left
  intro b _
  dsimp only [Function.comp]
  split_ifs <;> rfl

theorem bumpBlock_noop (n s : Nat) (bs : List LedgerBlockRec)
    (h : ∀ b ∈ bs, (b.block_number == n) = false) : bumpBlock n s bs = bs := by
  unfold bumpBlock
  induction bs with
  | nil => rfl
  | cons x rest ih =>
    rw [List.map_cons, if_neg (by simp [h x (List.mem_cons_self _ _)]), ih]
    intro b hb
    exact h b (List.mem_cons_of_mem _ hb)

theorem range'_foldl_max : ∀ B : Nat, (List.range' 1 B).foldl max 0 = B := by
  intro B
  induction B with
  | zero => rfl
  | succ n ih =>
    rw [range'_one_concat, List.foldl_append, ih]
    simp [Nat.max_def]

theorem nextBlockNumber_eq (st : Ledger)
    (h : st.blocks.map (·.block_number) = List.range' 1 st.blocks.length) :
    nextBlockNumber st = st.blocks.length + 1 := by
  unfold nextBlockNumber
  rw [show st.blocks.foldl (fun m b => max m b.block_number) 0 =
    (st.blocks.map (·.block_number)).foldl max 0 from by rw [List.foldl_map]]
  rw [h, range'_foldl_max]

theorem find_block (bs : List LedgerBlockRec) (hnd : (bs.map (·.block_number)).Nodup) :
    ∀ b ∈ bs, bs.find? (·.block_number == b.block_number) = some b := by
  induction bs with
  | nil => intro b hb; cases hb
  | cons x rest ih =>
    intro b hb
    rcases List.mem_cons.mp hb with rfl | hb'
    · simp [List.find?_cons]
    · have hnotin : x.block_number ∉ rest.map (·.block_number) :=
        (List.nodup_cons.mp hnd).1
      have hbmem : b.block_number ∈ rest.map (·.block_number) :=
        List.mem_map_of_mem _ hb'
      have hx : (x.block_number == b.block_number) = false := by
        simp only [beq_eq_false_iff_ne]
        intro heq
        exact hnotin (heq ▸ hbmem)
      simp only [List.find?_cons, hx]
      exact ih (List.nodup_cons.mp hnd).2 b hb'

theorem mem_number_unique (bs : List LedgerBlockRec)
    (hnd : (bs.map (·.block_number)).Nodup) {b₁ b₂ : LedgerBlockRec}
    (h₁ : b₁ ∈ bs) (h₂ : b₂ ∈ bs) (heq : b₁.block_number = b₂.block_number) : b₁ = b₂ := by
  have e₁ := find_block bs hnd b₁ h₁
  have e₂ := find_block bs hnd b₂ h₂
  rw [heq] at e₁
  rw [e₁] at e₂
  exact Option.some.inj e₂

theorem shouldSeal_false_of_wf (st : Ledger) (W : LedgerWF st) :
    shouldSealBlock st = false := by
  unfold shouldSealBlock
  cases hcb : st.current_block with
  | none => rfl
  | some c =>
    obtain ⟨bc, hmem, hnum, -, -, -, hlt⟩ := W.cur_block c hcb
    have hnd : (st.blocks.map (·.block_number)).Nodup := by
      rw [W.bnums]; exact List.nodup_range' _ _
    have hfind : getBlockByNumber st c = some bc := by
      unfold getBlockByNumber
      rw [← hnum]
      exact find_block st.blocks hnd bc hmem
    dsimp only
    rw [hfind]
    simp only [decide_eq_false_iff_not]
    omega

theorem blockEntries_fresh (st : Ledger) (W : LedgerWF st) :
    blockEntries st (st.blocks.length + 1) = [] := by
  unfold blockEntries
  rw [List.filter_eq_nil]
  intro e he
  simp only [beq_iff_eq, Option.some.injEq]
  intro hbid
  have hmem := W.ebids e he (st.blocks.length + 1) (by rw [hbid])
  rw [W.bnums] at hmem
  have := List.mem_range'.mp hmem
  omega

theorem verifyChainEntries_of_chain : ∀ (l : List LedgerEntryRec) (p : Option String),
    (∀ e ∈ l, e.entry_hash = e.calculateHash) → chainLinked p l = true →
    verifyChainEntries p l = true := by
  intro l
  induction l with
  | nil => intro p _ _; rfl
  | cons e rest ih =>
    intro p hh hc
    have hche : chainLinked p (e :: rest) =
        ((e.previous_hash == p) && chainLinked (some e.entry_hash) rest) := rfl
    rw [hche] at hc
    simp only [Bool.and_eq_true] at hc
    obtain ⟨hprev, hrest⟩ := hc
    have hint : e.verifyIntegrity = true := by
      unfold LedgerEntryRec.verifyIntegrity
      rw [hh e (List.mem_cons_self _ _)]
      exact beq_self_eq_true _
    have hrec : verifyChainEntries (some e.entry_hash) rest = true :=
      ih (some e.entry_hash) (fun x hx => hh x (List.mem_cons_of_mem _ hx)) hrest
    unfold verifyChainEntries
    rw [hint, if_neg (by simp)]
    cases p with
    | none => exact hrec
    | some q =>
      have hb : (e.previous_hash != some q) = false := by
        simp [bne, hprev]
      show (if (e.previous_hash != some q) = true then false
            else verifyChainEntries (some e.entry_hash) rest) = true
      rw [hb, if_neg (by simp)]
      exact hrec

theorem bumpBlock_append (n s : Nat) (xs ys : List LedgerBlockRec) :
    bumpBlock n s (xs ++ ys) = bumpBlock n s xs ++ bumpBlock n s ys := by
  unfold bumpBlock
  exact List.map_append _ xs ys

theorem find?_append_none {α : Type} {p : α → Bool} {l₁ : List α}
    (h : l₁.find? p = none) (l₂ : List α) : (l₁ ++ l₂).find? p = l₂.find? p := by
  induction l₁ with
  | nil => rfl
  | cons x rest ih =>
    rw [List.find?_cons] at h
    cases hx : p x with
    | true => rw [hx] at h; exact Option.noConfusion h
    | false =>
      rw [hx] at h
      rw [List.cons_append, List.find?_cons, hx]
      exact ih h

theorem blocksMap_noop (n : Nat) (f : LedgerBlockRec → LedgerBlockRec)
    (bs : List LedgerBlockRec) (h : ∀ b ∈ bs, (b.block_number == n) = false) :
    bs.map (fun b => if b.block_number == n then f b else b) = bs := by
  induction bs with
  | nil => rfl
  | cons x rest ih =>
    rw [List.map_cons, if_neg (by rw [h x (List.mem_cons_self _ _)]; exact Bool.false_ne_true)]
    rw [ih (fun b hb => h b (List.mem_cons_of_mem _ hb))]

theorem condMap_number (n : Nat) (f : LedgerBlockRec → LedgerBlockRec)
    (hf : ∀ b, (f b).block_number = b.block_number) (bs : List LedgerBlockRec) :
    (bs.map (fun b => if b.block_number == n then f b else b)).map (·.block_number) =
      bs.map (·.block_number) := by
  rw [List.map_map]
  apply List.map_congr_left
  intro b _
  dsimp only [Function.comp]
  split_ifs with h
  · exact hf b
  · rfl

theorem find?_condMap (n m : Nat) (f : LedgerBlockRec → LedgerBlockRec)
    (hf : ∀ b, (f b).block_number = b.block_number) (bs : List LedgerBlockRec) :
    (bs.map (fun b => if b.block_number == n then f b else b)).find? (·.block_number == m) =
      (bs.find? (·.block_number == m)).map
        (fun b => if b.block_number == n then f b else b) := by
  rw [List.find?_map]
  have hpe : ((fun b : LedgerBlockRec => b.block_number == m) ∘
      (fun b => if b.block_number == n then f b else b)) =
      (fun b : LedgerBlockRec => b.block_number == m) := by
    funext b
    dsimp only [Function.comp]
    split_ifs with h
    · rw [hf b]
    · rfl
  rw [hpe]

theorem bumpBlock_eq_condMap (n s : Nat) (bs : List LedgerBlockRec) :
    bumpBlock n s bs = bs.map (fun b => if b.block_number == n then
      { b with entry_count := b.entry_count + 1, last_entry_sequence := s } else b) := rfl

theorem mem_condMap (n : Nat) (f : LedgerBlockRec → LedgerBlockRec)
    (bs : List LedgerBlockRec) (b' : LedgerBlockRec)
    (h : b' ∈ bs.map (fun b => if b.block_number == n then f b else b)) :
    ∃ b ∈ bs, b' = if b.block_number == n then f b else b := by
  obtain ⟨b, hb, he⟩ := List.mem_map.mp h
  exact ⟨b, hb, he.symm⟩

theorem sealBlock_some_char (now : String) (es : List LedgerEntryRec)
    (bs : List LedgerBlockRec) (cs bsize n : Nat)
    (hne : (es.filter (·.block_id == some n)).isEmpty = false) :
    sealBlock now (Ledger.mk es bs cs (some n) bsize) =
      Ledger.mk es
        (bs.map fun b => if b.block_number == n then
          { b with
            merkle_root := merkleRootOfHashes
              ((es.filter (·.block_id == some n)).map (·.entry_hash)),
            sealed_at := some now }
          else b)
        cs none bsize := by
  unfold sealBlock
  dsimp only
  unfold blockEntries
  dsimp only
  rw [hne, if_neg Bool.false_ne_true]

theorem shouldSeal_append_fresh (es : List LedgerEntryRec) (bs : List LedgerBlockRec)
    (cs bsize n : Nat) (nb : LedgerBlockRec) (hnum : nb.block_number = n)
    (hn : ∀ b ∈ bs, (b.block_number == n) = false) :
    shouldSealBlock (Ledger.mk es (bs ++ [nb]) cs (some n) bsize) =
      decide (bsize ≤ nb.entry_count) := by
  subst hnum
  unfold shouldSealBlock getBlockByNumber
  dsimp only
  rw [find?_append_none
    (List.find?_eq_none.mpr fun b hb => by rw [hn b hb]; exact Bool.false_ne_true)]
  simp [List.find?_cons]

theorem appendEvent_none_char (now : String) (ev : LedgerEvent) (st : Ledger)
    (hcb : st.current_block = none)
    (hnext : nextBlockNumber st = st.blocks.length + 1)
    (hnoop : ∀ b ∈ st.blocks, (b.block_number == st.blocks.length + 1) = false)
    (hfresh : st.entries.filter (·.block_id == some (st.blocks.length + 1)) = []) :
    appendEvent now ev st =
      if st.block_size ≤ 1 then
        { entries := st.entries ++ [appendNewEntry now ev st],
          blocks := st.blocks ++ [⟨st.blocks.length + 1, 1, st.current_sequence,
            st.current_sequence,
            merkleRootOfHashes [(appendNewEntry now ev st).entry_hash], some now⟩],
          current_sequence := st.current_sequence + 1,
          current_block := none,
          block_size := st.block_size }
      else
        { entries := st.entries ++ [appendNewEntry now ev st],
          blocks := st.blocks ++ [⟨st.blocks.length + 1, 1, st.current_sequence,
            st.current_sequence, "", none⟩],
          current_sequence := st.current_sequence + 1,
          current_block := some (st.blocks.length + 1),
          block_size := st.block_size } := by
  have hneed : appendNeedNewBlock st = true := by
    unfold appendNeedNewBlock
    rw [hcb]
    rfl
  have hbn : appendBlockNum st = st.blocks.length + 1 := by
    unfold appendBlockNum
    rw [hneed, if_pos rfl, hnext]
  have hseq : (appendNewEntry now ev st).sequence_number = st.current_sequence := rfl
  have hbid : (appendNewEntry now ev st).block_id = some (st.blocks.length + 1) := by
    show some (appendBlockNum st) = _
    rw [hbn]
  have hsing : bumpBlock (st.blocks.length + 1) st.current_sequence [createNewBlock st] =
      [LedgerBlockRec.mk (st.blocks.length + 1) 1 st.current_sequence
        st.current_sequence "" none] := by
    unfold bumpBlock createNewBlock
    rw [hnext, List.map_cons, List.map_nil]
    dsimp only
    rw [if_pos (beq_self_eq_true _)]
  have hbump : bumpBlock (st.blocks.length + 1) st.current_sequence
      (st.blocks ++ [createNewBlock st]) =
      st.blocks ++ [LedgerBlockRec.mk (st.blocks.length + 1) 1 st.current_sequence
        st.current_sequence "" none] := by
    rw [bumpBlock_append, bumpBlock_noop _ _ _ hnoop, hsing]
  unfold appendEvent
  dsimp only
  rw [hneed, if_pos rfl]
  dsimp only
  rw [hnext, hbn, hseq, hbump]
  rw [shouldSeal_append_fresh (st.entries ++ [appendNewEntry now ev st]) st.blocks
    st.current_sequence st.block_size (st.blocks.length + 1)
    (LedgerBlockRec.mk (st.blocks.length + 1) 1 st.current_sequence
      st.current_sequence "" none) rfl hnoop]
  dsimp only
  by_cases hle : st.block_size ≤ 1
  · rw [if_pos hle]
    rw [show decide (st.block_size ≤ 1) = true from decide_eq_true hle, if_pos rfl]
    have hflt : List.filter (fun x => x.block_id == some (st.blocks.length + 1))
        (st.entries ++ [appendNewEntry now ev st]) = [appendNewEntry now ev st] := by
      rw [List.filter_append, hfresh, List.nil_append, List.filter_cons,
        if_pos (by rw [hbid]; exact beq_self_eq_true (some (st.blocks.length + 1))),
        List.filter_nil]
    rw [sealBlock_some_char now (st.entries ++ [appendNewEntry now ev st]) _ _ _ _
      (by rw [hflt]; rfl)]
    dsimp only
    rw [hflt]
    rw [List.map_append, blocksMap_noop _ _ _ hnoop, List.map_cons, List.map_nil]
    dsimp only
    rw [if_pos (beq_self_eq_true _), List.map_cons, List.map_nil]
  · rw [if_neg hle]
    rw [show decide (st.block_size ≤ 1) = false from decide_eq_false hle,
      if_neg Bool.false_ne_true]

theorem appendEvent_some_char (now : String) (ev : LedgerEvent) (st : Ledger) (c : Nat)
    (hcb : st.current_block = some c)
    (hseal : shouldSealBlock st = false)
    (bc : LedgerBlockRec)
    (hfind : st.blocks.find? (·.block_number == c) = some bc)
    (hbcn : bc.block_number = c) :
    appendEvent now ev st =
      if st.block_size ≤ bc.entry_count + 1 then
        { entries := st.entries ++ [appendNewEntry now ev st],
          blocks := (bumpBlock c st.current_sequence st.blocks).map fun b =>
            if b.block_number == c then
              { b with
                merkle_root := merkleRootOfHashes
                  (((st.entries ++ [appendNewEntry now ev st]).filter
                    (·.block_id == some c)).map (·.entry_hash)),
                sealed_at := some now }
            else b,
          current_sequence := st.current_sequence + 1,
          current_block := none,
          block_size := st.block_size }
      else
        { entries := st.entries ++ [appendNewEntry now ev st],
          blocks := bumpBlock c st.current_sequence st.blocks,
          current_sequence := st.current_sequence + 1,
          current_block := some c,
          block_size := st.block_size } := by
  have hneed : appendNeedNewBlock st = false := by
    unfold appendNeedNewBlock
    rw [hcb, hseal]
    rfl
  have hbn : appendBlockNum st = c := by
    unfold appendBlockNum
    rw [hneed, if_neg Bool.false_ne_true, hcb]
    rfl
  have hseq : (appendNewEntry now ev st).sequence_number = st.current_sequence := rfl
  have hbid : (appendNewEntry now ev st).block_id = some c := by
    show some (appendBlockNum st) = _
    rw [hbn]
  have hf : ∀ b : LedgerBlockRec,
      ({ b with entry_count := b.entry_count + 1, last_entry_sequence := st.current_sequence } : LedgerBlockRec).block_number = b.block_number :=
    fun _ => rfl
  have hss : shouldSealBlock (Ledger.mk (st.entries ++ [appendNewEntry now ev st])
      (bumpBlock c st.current_sequence st.blocks) st.current_sequence (some c)
      st.block_size) = decide (st.block_size ≤ bc.entry_count + 1) := by
    unfold shouldSealBlock getBlockByNumber
    dsimp only
    rw [bumpBlock_eq_condMap, find?_condMap c c _ hf st.blocks, hfind]
    dsimp only [Option.map]
    rw [if_pos (show (bc.block_number == c) = true from by
      rw [hbcn]; exact beq_self_eq_true c)]
  unfold appendEvent
  dsimp only
  rw [hneed, if_neg Bool.false_ne_true]
  rw [hbn, hseq, hcb, hss]
  by_cases hle : st.block_size ≤ bc.entry_count + 1
  · rw [if_pos hle]
    rw [show decide (st.block_size ≤ bc.entry_count + 1) = true from decide_eq_true hle,
      if_pos rfl]
    have hne : ((st.entries ++ [appendNewEntry now ev st]).filter
        (·.block_id == some c)).isEmpty = false := by
      rw [List.filter_append, List.filter_cons,
        if_pos (by rw [hbid]; exact beq_self_eq_true (some c)), List.filter_nil]
      cases hF : List.filter (fun x => x.block_id == some c) st.entries <;> rfl
    rw [sealBlock_some_char now (st.entries ++ [appendNewEntry now ev st]) _ _ _ _ hne]
  · rw [if_neg hle]
    rw [show decide (st.block_size ≤ bc.entry_count + 1) = false from decide_eq_false hle,
      if_neg Bool.false_ne_true]

theorem filter_append_singleton_neg {α : Type} (p : α → Bool) (l : List α) (e : α)
    (h : p e = false) : (l ++ [e]).filter p = l.filter p := by
  rw [List.filter_append, List.filter_cons, h, if_neg Bool.false_ne_true,
    List.filter_nil, List.append_nil]

theorem filter_append_singleton_pos {α : Type} (p : α → Bool) (l : List α) (e : α)
    (h : p e = true) : (l ++ [e]).filter p = l.filter p ++ [e] := by
  rw [List.filter_append, List.filter_cons, h, if_pos rfl, List.filter_nil]

theorem wf_entries_ext (st : Ledger) (W : LedgerWF st) (now : String) (ev : LedgerEvent) :
    ((st.entries ++ [appendNewEntry now ev st]).map (·.sequence_number) =
      List.range' 1 (st.entries ++ [appendNewEntry now ev st]).length) ∧
    (∀ e ∈ st.entries ++ [appendNewEntry now ev st], e.entry_hash = e.calculateHash) ∧
    (chainLinked none (st.entries ++ [appendNewEntry now ev st]) = true) := by
  have hprev := appendPrevHash_eq st W.seqs W.cur
  refine ⟨?_, ?_, ?_⟩
  · rw [List.map_append, List.length_append, W.seqs]
    rw [show List.map (·.sequence_number) [appendNewEntry now ev st] =
      [st.current_sequence] from rfl, W.cur]
    exact (range'_one_concat st.entries.length).symm
  · intro e he
    rcases List.mem_append.mp he with h | h
    · exact W.hashes e h
    · have he' : e = appendNewEntry now ev st := List.mem_singleton.mp h
      subst he'
      rfl
  · rw [chainLinked_append, W.chain, Bool.true_and]
    rw [show (appendNewEntry now ev st).previous_hash = appendPrevHash st from rfl, hprev]
    exact beq_self_eq_true _

theorem sealMap_number (n : Nat) (r t : String) (bs : List LedgerBlockRec) :
    (bs.map (fun b => if b.block_number == n then
      { b with merkle_root := r, sealed_at := some t } else b)).map (·.block_number) =
      bs.map (·.block_number) :=
  condMap_number n (fun b => { b with merkle_root := r, sealed_at := some t }) (fun _ => rfl) bs

theorem appendEvent_wf (now : String) (ev : LedgerEvent) (st : Ledger) (W : LedgerWF st) :
    LedgerWF (appendEvent now ev st) := by
  have hnd : (st.blocks.map (·.block_number)).Nodup := by
    rw [W.bnums]; exact List.nodup_range' _ _
  have hE := wf_entries_ext st W now ev
  cases hcb : st.current_block with
  | none =>
    have hnext := nextBlockNumber_eq st W.bnums
    have hnoop : ∀ b ∈ st.blocks, (b.block_number == st.blocks.length + 1) = false := by
      intro b hb
      simp only [beq_eq_false_iff_ne]
      intro he
      have hmm : b.block_number ∈ st.blocks.map (·.block_number) :=
        List.mem_map_of_mem _ hb
      rw [W.bnums] at hmm
      have := List.mem_range'.mp hmm
      omega
    have hneed : appendNeedNewBlock st = true := by
      unfold appendNeedNewBlock
      rw [hcb]
      rfl
    have hbidA : (appendNewEntry now ev st).block_id = some (st.blocks.length + 1) := by
      show some (appendBlockNum st) = _
      unfold appendBlockNum
      rw [hneed, if_pos rfl, hnext]
    have hfreshf : List.filter (fun x => x.block_id == some (st.blocks.length + 1))
        st.entries = [] := blockEntries_fresh st W
    have hbnumsA : ∀ (nb : LedgerBlockRec), nb.block_number = st.blocks.length + 1 →
        (st.blocks ++ [nb]).map (·.block_number) =
          List.range' 1 (st.blocks ++ [nb]).length := by
      intro nb hnb
      rw [List.map_append, W.bnums, List.length_append]
      rw [show List.map (·.block_number) [nb] = [nb.block_number] from rfl, hnb]
      exact (range'_one_concat st.blocks.length).symm
    have hebidsA : ∀ (nb : LedgerBlockRec), nb.block_number = st.blocks.length + 1 →
        ∀ e ∈ st.entries ++ [appendNewEntry now ev st], ∀ bid, e.block_id = some bid →
          bid ∈ (st.blocks ++ [nb]).map (·.block_number) := by
      intro nb hnb e he bid hb
      rw [List.map_append]
      rcases List.mem_append.mp he with h | h
      · exact List.mem_append_left _ (W.ebids e h bid hb)
      · have he' : e = appendNewEntry now ev st := List.mem_singleton.mp h
        subst he'
        rw [hbidA] at hb
        injection hb with hb'
        apply List.mem_append_right
        rw [show List.map (·.block_number) [nb] = [nb.block_number] from rfl, hnb]
        exact List.mem_singleton.mpr hb'.symm
    have hne_old : ∀ b ∈ st.blocks,
        ((appendNewEntry now ev st).block_id == some b.block_number) = false := by
      intro b hb
      have hmm : b.block_number ∈ st.blocks.map (·.block_number) :=
        List.mem_map_of_mem _ hb
      rw [W.bnums] at hmm
      have := List.mem_range'.mp hmm
      rw [hbidA]
      simp only [beq_eq_false_iff_ne]
      intro hcon
      injection hcon with hcon'
      omega
    have hfltA : List.filter (fun x => x.block_id == some (st.blocks.length + 1))
        (st.entries ++ [appendNewEntry now ev st]) = [appendNewEntry now ev st] := by
      rw [filter_append_singleton_pos _ _ _ (by rw [hbidA]; exact beq_self_eq_true _),
        hfreshf, List.nil_append]
    rw [appendEvent_none_char now ev st hcb hnext hnoop hfreshf]
    by_cases hle : st.block_size ≤ 1
    · rw [if_pos hle]
      refine ⟨hE.1, ?_, hE.2.1, hE.2.2, hbnumsA _ rfl, hebidsA _ rfl, ?_, ?_, ?_⟩
      · simp [W.cur]
      · intro b hb hbs
        replace hb : b ∈ st.blocks ++ [_] := hb
        rcases List.mem_append.mp hb with h | h
        · have hne := hne_old b h
          unfold blockEntries
          dsimp only
          rw [filter_append_singleton_neg (fun x => x.block_id == some b.block_number) st.entries (appendNewEntry now ev st) hne]
          exact W.sealed_ok b h hbs
        · have hb' := List.mem_singleton.mp h
          subst hb'
          unfold blockEntries
          dsimp only
          rw [hfltA]
          exact ⟨List.cons_ne_nil _ _, rfl, rfl⟩
      · intro b hb hb0
        replace hb : b ∈ st.blocks ++ [_] := hb
        rcases List.mem_append.mp hb with h | h
        · have hcon := W.unsealed_cur b h hb0
          rw [hcb] at hcon
          exact Option.noConfusion hcon
        · have hb' := List.mem_singleton.mp h
          subst hb'
          exact Option.noConfusion hb0
      · intro c hc
        exact Option.noConfusion hc
    · rw [if_neg hle]
      refine ⟨hE.1, ?_, hE.2.1, hE.2.2, hbnumsA _ rfl, hebidsA _ rfl, ?_, ?_, ?_⟩
      · simp [W.cur]
      · intro b hb hbs
        replace hb : b ∈ st.blocks ++ [_] := hb
        rcases List.mem_append.mp hb with h | h
        · have hne := hne_old b h
          unfold blockEntries
          dsimp only
          rw [filter_append_singleton_neg (fun x => x.block_id == some b.block_number) st.entries (appendNewEntry now ev st) hne]
          exact W.sealed_ok b h hbs
        · have hb' := List.mem_singleton.mp h
          subst hb'
          exact absurd rfl hbs
      · intro b hb hb0
        replace hb : b ∈ st.blocks ++ [_] := hb
        rcases List.mem_append.mp hb with h | h
        · have hcon := W.unsealed_cur b h hb0
          rw [hcb] at hcon
          exact Option.noConfusion hcon
        · have hb' := List.mem_singleton.mp h
          subst hb'
          rfl
      · intro c hc
        injection hc with hc'
        subst hc'
        refine ⟨⟨st.blocks.length + 1, 1, st.current_sequence, st.current_sequence,
          "", none⟩, List.mem_append_right _ (List.mem_singleton.mpr rfl),
          rfl, rfl, ?_, ?_, ?_⟩
        · unfold blockEntries
          dsimp only
          rw [hfltA]
          rfl
        · unfold blockEntries
          dsimp only
          rw [hfltA]
          exact List.cons_ne_nil _ _
        · show 1 < st.block_size
          omega
  | some c =>
    obtain ⟨bc, hmem, hnum, hbc0, hcount, hne0, hlt⟩ := W.cur_block c hcb
    have hcount' : bc.entry_count =
        (List.filter (fun x => x.block_id == some c) st.entries).length := hcount
    have hfind : st.blocks.find? (·.block_number == c) = some bc := by
      rw [← hnum]
      exact find_block st.blocks hnd bc hmem
    have hsealf := shouldSeal_false_of_wf st W
    have hneedB : appendNeedNewBlock st = false := by
      unfold appendNeedNewBlock
      rw [hcb, hsealf]
      rfl
    have hbidB : (appendNewEntry now ev st).block_id = some c := by
      show some (appendBlockNum st) = _
      unfold appendBlockNum
      rw [hneedB, if_neg Bool.false_ne_true, hcb]
      rfl
    have hne_ne : ∀ m, m ≠ c →
        ((appendNewEntry now ev st).block_id == some m) = false := by
      intro m hm
      rw [hbidB]
      simp only [beq_eq_false_iff_ne]
      intro hcon
      injection hcon with hcon'
      exact hm hcon'.symm
    have hbump_len : (bumpBlock c st.current_sequence st.blocks).length =
        st.blocks.length := by
      rw [bumpBlock_eq_condMap]
      exact List.length_map _ _
    have hbeC : List.filter (fun x => x.block_id == some c)
        (st.entries ++ [appendNewEntry now ev st]) =
        List.filter (fun x => x.block_id == some c) st.entries ++
          [appendNewEntry now ev st] :=
      filter_append_singleton_pos _ _ _ (by rw [hbidB]; exact beq_self_eq_true _)
    rw [appendEvent_some_char now ev st c hcb hsealf bc hfind hnum]
    by_cases hle : st.block_size ≤ bc.entry_count + 1
    · rw [if_pos hle]
      refine ⟨hE.1, ?_, hE.2.1, hE.2.2, ?_, ?_, ?_, ?_, ?_⟩
      · simp [W.cur]
      · dsimp only
        rw [sealMap_number, bumpBlock_map_number, W.bnums, List.length_map, hbump_len]
      · intro e he bid hb
        replace he : e ∈ st.entries ++ [appendNewEntry now ev st] := he
        dsimp only
        rw [sealMap_number, bumpBlock_map_number]
        rcases List.mem_append.mp he with h | h
        · exact W.ebids e h bid hb
        · have he' : e = appendNewEntry now ev st := List.mem_singleton.mp h
          subst he'
          rw [hbidB] at hb
          injection hb with hb'
          rw [← hb', ← hnum]
          exact List.mem_map_of_mem _ hmem
      · intro b'' hb'' hbs
        obtain ⟨b', hbm', hbe'⟩ := mem_condMap _ _ _ _ hb''
        rw [bumpBlock_eq_condMap] at hbm'
        obtain ⟨b, hbm, hbe⟩ := mem_condMap _ _ _ _ hbm'
        by_cases hbc : (b.block_number == c) = true
        · have hbeqc : b.block_number = c := beq_iff_eq.mp hbc
          have hbeq : b = bc := mem_number_unique st.blocks hnd hbm hmem
            (by rw [hbeqc, hnum])
          subst hbeq
          rw [hbc, if_pos rfl] at hbe
          subst hbe
          dsimp only at hbe'
          rw [hbc, if_pos rfl] at hbe'
          subst hbe'
          dsimp only
          rw [hnum]
          unfold blockEntries
          dsimp only
          rw [hbeC]
          refine ⟨?_, ?_, ?_⟩
          · intro hcon
            exact absurd (List.append_eq_nil.mp hcon).2 (List.cons_ne_nil _ _)
          · rw [List.length_append, hcount']
            rfl
          · rfl
        · rw [Bool.not_eq_true] at hbc
          rw [hbc, if_neg Bool.false_ne_true] at hbe
          have hbe2 := hbe.symm
          subst hbe2
          rw [hbc, if_neg Bool.false_ne_true] at hbe'
          have hbe3 := hbe'.symm
          subst hbe3
          have hne := hne_ne b.block_number (beq_eq_false_iff_ne.mp hbc)
          unfold blockEntries
          dsimp only
          rw [filter_append_singleton_neg (fun x => x.block_id == some b.block_number) st.entries (appendNewEntry now ev st) hne]
          exact W.sealed_ok b hbm hbs
      · intro b'' hb'' hb0
        obtain ⟨b', hbm', hbe'⟩ := mem_condMap _ _ _ _ hb''
        rw [bumpBlock_eq_condMap] at hbm'
        obtain ⟨b, hbm, hbe⟩ := mem_condMap _ _ _ _ hbm'
        by_cases hbc : (b.block_number == c) = true
        · rw [hbc, if_pos rfl] at hbe
          subst hbe
          dsimp only at hbe'
          rw [hbc, if_pos rfl] at hbe'
          subst hbe'
          exact Option.noConfusion hb0
        · rw [Bool.not_eq_true] at hbc
          rw [hbc, if_neg Bool.false_ne_true] at hbe
          have hbe2 := hbe.symm
          subst hbe2
          rw [hbc, if_neg Bool.false_ne_true] at hbe'
          have hbe3 := hbe'.symm
          subst hbe3
          have hcon := W.unsealed_cur b hbm hb0
          rw [hcb] at hcon
          injection hcon with hcon'
          exact absurd hcon'.symm (beq_eq_false_iff_ne.mp hbc)
      · intro c' hc'
        exact Option.noConfusion hc'
    · rw [if_neg hle]
      refine ⟨hE.1, ?_, hE.2.1, hE.2.2, ?_, ?_, ?_, ?_, ?_⟩
      · simp [W.cur]
      · show (bumpBlock c st.current_sequence st.blocks).map (·.block_number) = _
        rw [bumpBlock_map_number, W.bnums, hbump_len]
      · intro e he bid hb
        replace he : e ∈ st.entries ++ [appendNewEntry now ev st] := he
        show bid ∈ (bumpBlock c st.current_sequence st.blocks).map (·.block_number)
        rw [bumpBlock_map_number]
        rcases List.mem_append.mp he with h | h
        · exact W.ebids e h bid hb
        · have he' : e = appendNewEntry now ev st := List.mem_singleton.mp h
          subst he'
          rw [hbidB] at hb
          injection hb with hb'
          rw [← hb', ← hnum]
          exact List.mem_map_of_mem _ hmem
      · intro b' hb' hbs
        replace hb' : b' ∈ bumpBlock c st.current_sequence st.blocks := hb'
        rw [bumpBlock_eq_condMap] at hb'
        obtain ⟨b, hbm, hbe⟩ := mem_condMap _ _ _ _ hb'
        by_cases hbc : (b.block_number == c) = true
        · have hbeq : b = bc := mem_number_unique st.blocks hnd hbm hmem
            (by rw [beq_iff_eq.mp hbc, hnum])
          subst hbeq
          rw [hbc, if_pos rfl] at hbe
          subst hbe
          exact absurd hbc0 hbs
        · rw [Bool.not_eq_true] at hbc
          rw [hbc, if_neg Bool.false_ne_true] at hbe
          have hbe2 := hbe.symm
          subst hbe2
          have hne := hne_ne b.block_number (beq_eq_false_iff_ne.mp hbc)
          unfold blockEntries
          dsimp only
          rw [filter_append_singleton_neg (fun x => x.block_id == some b.block_number) st.entries (appendNewEntry now ev st) hne]
          exact W.sealed_ok b hbm hbs
      · intro b' hb' hb0
        replace hb' : b' ∈ bumpBlock c st.current_sequence st.blocks := hb'
        rw [bumpBlock_eq_condMap] at hb'
        obtain ⟨b, hbm, hbe⟩ := mem_condMap _ _ _ _ hb'
        by_cases hbc : (b.block_number == c) = true
        · rw [hbc, if_pos rfl] at hbe
          subst hbe
          exact congrArg some (beq_iff_eq.mp hbc).symm
        · rw [Bool.not_eq_true] at hbc
          rw [hbc, if_neg Bool.false_ne_true] at hbe
          have hbe2 := hbe.symm
          subst hbe2
          have hcon := W.unsealed_cur b hbm hb0
          rw [hcb] at hcon
          injection hcon with hcon'
          exact congrArg some hcon'
      · intro c' hc'
        injection hc' with hc''
        subst hc''
        refine ⟨{ bc with entry_count := bc.entry_count + 1, last_entry_sequence := st.current_sequence }, ?_, hnum, hbc0, ?_, ?_, ?_⟩
        · show _ ∈ bumpBlock c st.current_sequence st.blocks
          rw [bumpBlock_eq_condMap]
          have hmm := List.mem_map_of_mem (fun b => if b.block_number == c then { b with entry_count := b.entry_count + 1, last_entry_sequence := st.current_sequence } else b) hmem
          dsimp only at hmm
          rw [show (bc.block_number == c) = true from by
            rw [hnum]; exact beq_self_eq_true _, if_pos rfl] at hmm
          exact hmm
        · show bc.entry_count + 1 = _
          unfold blockEntries
          dsimp only
          rw [hbeC, List.length_append, hcount']
          rfl
        · unfold blockEntries
          dsimp only
          rw [hbeC]
          intro hcon
          exact absurd (List.append_eq_nil.mp hcon).2 (List.cons_ne_nil _ _)
        · show bc.entry_count + 1 < st.block_size
          omega


theorem sealBlock_wf (now : String) (st : Ledger) (W : LedgerWF st) :
    LedgerWF (sealBlock now st) := by
  have hnd : (st.blocks.map (·.block_number)).Nodup := by
    rw [W.bnums]; exact List.nodup_range' _ _
  cases hcb : st.current_block with
  | none =>
    have hid : sealBlock now st = st := by
      unfold sealBlock
      rw [hcb]
    rw [hid]
    exact W
  | some c =>
    obtain ⟨bc, hmem, hnum, hbc0, hcount, hne0, hlt⟩ := W.cur_block c hcb
    have hef : (st.entries.filter (·.block_id == some c)).isEmpty = false := by
      cases hq : st.entries.filter (·.block_id == some c) with
      | nil => exact absurd hq hne0
      | cons x xs => rfl
    have h0 : st = Ledger.mk st.entries st.blocks st.current_sequence (some c)
        st.block_size := by
      rw [← hcb]
    rw [h0, sealBlock_some_char now st.entries st.blocks st.current_sequence
      st.block_size c hef]
    refine ⟨W.seqs, W.cur, W.hashes, W.chain, ?_, ?_, ?_, ?_, ?_⟩
    · dsimp only
      rw [sealMap_number, W.bnums, List.length_map]
    · intro e he bid hb
      replace he : e ∈ st.entries := he
      dsimp only
      rw [sealMap_number]
      exact W.ebids e he bid hb
    · intro b'' hb'' hbs
      obtain ⟨b, hbm, hbe⟩ := mem_condMap _ _ _ _ hb''
      by_cases hbc : (b.block_number == c) = true
      · have hbeq : b = bc := mem_number_unique st.blocks hnd hbm hmem
          (by rw [beq_iff_eq.mp hbc, hnum])
        subst hbeq
        rw [hbc, if_pos rfl] at hbe
        subst hbe
        dsimp only
        rw [hnum]
        unfold blockEntries
        dsimp only
        exact ⟨hne0, hcount, rfl⟩
      · rw [Bool.not_eq_true] at hbc
        rw [hbc, if_neg Bool.false_ne_true] at hbe
        have hbe2 := hbe.symm
        subst hbe2
        exact W.sealed_ok b hbm hbs
    · intro b'' hb'' hb0
      obtain ⟨b, hbm, hbe⟩ := mem_condMap _ _ _ _ hb''
      by_cases hbc : (b.block_number == c) = true
      · rw [hbc, if_pos rfl] at hbe
        subst hbe
        exact Option.noConfusion hb0
      · rw [Bool.not_eq_true] at hbc
        rw [hbc, if_neg Bool.false_ne_true] at hbe
        have hbe2 := hbe.symm
        subst hbe2
        have hcon := W.unsealed_cur b hbm hb0
        rw [hcb] at hcon
        injection hcon with hcon'
        exact absurd hcon'.symm (beq_eq_false_iff_ne.mp hbc)
    · intro c' hc'
      exact Option.noConfusion hc'

theorem sealCurrentBlock_wf (now : String) (st : Ledger) (W : LedgerWF st) :
    LedgerWF (sealCurrentBlock now st).1 := by
  unfold sealCurrentBlock
  cases hcb : st.current_block with
  | none => exact W
  | some c => exact sealBlock_wf now st W

theorem emptyLedger_wf : LedgerWF emptyLedger := by
  refine ⟨rfl, rfl, ?_, rfl, rfl, ?_, ?_, ?_, ?_⟩
  · intro e he
    cases he
  · intro e he bid _
    cases he
  · intro b hb _
    cases hb
  · intro b hb _
    cases hb
  · intro c hc
    exact Option.noConfusion hc

theorem replay_wf_aux : ∀ (ops : List LedgerOp) (st : Ledger), LedgerWF st →
    LedgerWF (ops.foldl applyLedgerOp st) := by
  intro ops
  induction ops with
  | nil => intro st W; exact W
  | cons op rest ih =>
    intro st W
    rw [List.foldl_cons]
    apply ih
    cases op with
    | append now ev => exact appendEvent_wf now ev st W
    | «seal» now => exact sealCurrentBlock_wf now st W

theorem replayLedger_wf (ops : List LedgerOp) : LedgerWF (replayLedger ops) :=
  replay_wf_aux ops emptyLedger emptyLedger_wf

theorem foldl_append_entries_length : ∀ (evs : List (String × LedgerEvent)) (st : Ledger),
    (evs.foldl (fun s p => appendEvent p.1 p.2 s) st).entries.length =
      st.entries.length + evs.length := by
  intro evs
  induction evs with
  | nil => intro st; rfl
  | cons p rest ih =>
    intro st
    rw [List.foldl_cons, ih, appendEvent_entries, List.length_append,
      show [appendNewEntry p.1 p.2 st].length = 1 from rfl, List.length_cons]
    omega

/-- C1: starting from an empty ledger, any sequence of `append_event` calls
yields entries whose sequence numbers are exactly `1..K` for `K` the number
of appends (contiguous, no gaps), whose hash chain links every entry `N > 1`
to entry `N-1`\'s `entry_hash` with a null `previous_hash` on entry 1
(`chainLinked none`), and on which `verify_chain_integrity()` (default
arguments: start 1, no upper bound) returns true. -/
theorem C1_append_event_chain_and_verify (evs : List (String × LedgerEvent)) :
    (evs.foldl (fun s p => appendEvent p.1 p.2 s) emptyLedger).entries.length =
      evs.length ∧
    ((evs.foldl (fun s p => appendEvent p.1 p.2 s) emptyLedger).entries.map
        (·.sequence_number) =
      List.range' 1
        (evs.foldl (fun s p => appendEvent p.1 p.2 s) emptyLedger).entries.length) ∧
    chainLinked none
      (evs.foldl (fun s p => appendEvent p.1 p.2 s) emptyLedger).entries = true ∧
    verifyChainIntegrity
      (evs.foldl (fun s p => appendEvent p.1 p.2 s) emptyLedger) 1 none = true := by
  have hW : LedgerWF (evs.foldl (fun s p => appendEvent p.1 p.2 s) emptyLedger) := by
    have h := replay_wf_aux (evs.map fun p => LedgerOp.append p.1 p.2)
      emptyLedger emptyLedger_wf
    rw [List.foldl_map] at h
    exact h
  refine ⟨?_, hW.seqs, hW.chain, ?_⟩
  · rw [foldl_append_entries_length, show emptyLedger.entries.length = 0 from rfl,
      Nat.zero_add]
  rw [show verifyChainIntegrity
      (evs.foldl (fun s p => appendEvent p.1 p.2 s) emptyLedger) 1 none =
    verifyChainEntries none
      ((evs.foldl (fun s p => appendEvent p.1 p.2 s) emptyLedger).entries.filter
        (fun e => decide (1 ≤ e.sequence_number) && true)) from rfl]
  rw [List.filter_eq_self.mpr ?_]
  · exact verifyChainEntries_of_chain _ none hW.hashes hW.chain
  · intro a ha
    have hmm : a.sequence_number ∈
        (evs.foldl (fun s p => appendEvent p.1 p.2 s) emptyLedger).entries.map
          (·.sequence_number) := List.mem_map_of_mem _ ha
    rw [hW.seqs] at hmm
    have := List.mem_range'.mp hmm
    rw [Bool.and_true]
    exact decide_eq_true (by omega)

/-- C3: after any sequence of ledger operations (appends and manual seals)
starting from an empty store, every sealed block\'s stored `merkle_root`
equals the Merkle root recomputed from its entries\' hashes in table
(sequence) order, and `verify_block_integrity` returns true on it. -/
theorem C3_sealed_block_root_and_verify (ops : List LedgerOp) :
    (replayLedger ops).blocks.all (fun b =>
      !b.sealed_at.isSome ||
      ((b.merkle_root == merkleRootOfHashes
          ((blockEntries (replayLedger ops) b.block_number).map (·.entry_hash))) &&
        verifyBlockIntegrity (replayLedger ops) b.block_number)) = true := by
  have hW := replayLedger_wf ops
  have hnd : ((replayLedger ops).blocks.map (·.block_number)).Nodup := by
    rw [hW.bnums]; exact List.nodup_range' _ _
  rw [List.all_eq_true]
  intro b hb
  cases hs : b.sealed_at with
  | none => rfl
  | some t =>
    have hsome : b.sealed_at ≠ none := by
      rw [hs]
      exact fun h => Option.noConfusion h
    obtain ⟨hne, hcnt, hroot⟩ := hW.sealed_ok b hb hsome
    show ((b.merkle_root == _) && _) = true
    rw [Bool.and_eq_true]
    constructor
    · rw [hroot]
      exact beq_self_eq_true _
    · have hfind : getBlockByNumber (replayLedger ops) b.block_number = some b :=
        find_block (replayLedger ops).blocks hnd b hb
      have hef : (blockEntries (replayLedger ops) b.block_number).isEmpty = false := by
        cases hq : blockEntries (replayLedger ops) b.block_number with
        | nil => exact absurd hq hne
        | cons x xs => rfl
      have hall : (blockEntries (replayLedger ops) b.block_number).all
          (·.verifyIntegrity) = true := by
        rw [List.all_eq_true]
        intro e he
        have he' : e ∈ (replayLedger ops).entries := (List.mem_filter.mp he).1
        unfold LedgerEntryRec.verifyIntegrity
        rw [hW.hashes e he']
        exact beq_self_eq_true _
      unfold verifyBlockIntegrity
      rw [hfind]
      dsimp only
      rw [hef, if_neg Bool.false_ne_true, hall]
      rw [show (!true) = false from rfl, if_neg Bool.false_ne_true]
      unfold LedgerBlockRec.verifyIntegrity
      rw [if_neg (show ¬((blockEntries (replayLedger ops) b.block_number).length ≠
        b.entry_count) from fun hx => hx hcnt.symm)]
      rw [hroot]
      exact beq_self_eq_true _

end XSecure

